import Mathlib

/-!
Shallow embedding of the database connection manager in
`src/utils/mapepire.js` (certificate provider, server descriptor builder,
single-flight connection cache) together with theorems about its
specification.

Modelling conventions:
* JavaScript strings are `String`; `undefined`/`null` string values are
  `Option String`, and JS truthiness of a string (`""` is falsy) is
  `strTruthy`.
* Node `Buffer`s are `List Nat` (byte values); `Buffer.from(string)` is
  modelled as the list of character code points (the strings involved are
  ASCII).
* File system and network are an explicit read-only `World`; I/O actions
  are recorded in an effect log (`Eff`).  The `n`-th certificate fetch of
  the process receives response `World.netCert n`, so the remote endpoint
  may answer differently over time.  The advisory certificate-cache write
  is logged but not folded back into the file map (no claim reads a file
  it wrote during the same run).
* The cooperative (single-threaded, non-preemptive) scheduler of Node is
  modelled by small-step machines: each event runs one synchronous block
  between two suspension points, where awaits of already-resolved promises
  only defer to the microtask queue (which drains before any other event
  can run) and so belong to the enclosing block.  The coarse machine
  (`step`) treats `await getDatabaseServer()` as a single suspension
  resolving atomically; the cache slots `cachedDb` and `connecting` are
  not touched inside it, so this coarseness does not affect the
  slot-level claims.  The refined machine (`stepR`) additionally models
  the real suspension inside `getDatabaseServer`'s secure-branch
  certificate fetch — past the one-time entry check of `cachedServer` and
  before line 166's unconditional `cachedServer = server` assignment —
  with descriptor objects in an explicit store, and is used for the
  claims about the descriptor slot itself.
-/

namespace Mapepire

/-- JS truthiness of an optional string: `undefined`, `null` and `""` are falsy. -/
def strTruthy : Option String → Bool
  | none => false
  | some s => s != ""

/-- JS `a || b` on optional strings. -/
def jsOr (a b : Option String) : Option String :=
  if strTruthy a then a else b

/-- Value of an optional JS string coerced to a string (`undefined` → `""`). -/
def orEmpty : Option String → String
  | none => ""
  | some s => s

/-- First truthy string of a list, or `""` (a JS `a || b || ... || ""` chain). -/
def firstTruthy : List String → String
  | [] => ""
  | s :: rest => if s != "" then s else firstTruthy rest

/-- Model of `Buffer.from(s)` for the ASCII strings appearing here: character code points. -/
def strBytes (s : String) : List Nat := s.data.map Char.toNat

/-! ### Base64 and PEM formatting (`bufferToPem`, source lines 18–24) -/

def b64Table : List Char :=
  "ABCDEFGHIJKLMNOPQRSTUVWXYZabcdefghijklmnopqrstuvwxyz0123456789+/".data

def b64Char (n : Nat) : Char := b64Table.getD n 'A'

/-- Standard base64 with `=` padding, as `buf.toString("base64")`. -/
def base64Encode : List Nat → String
  | [] => ""
  | b1 :: b2 :: b3 :: rest =>
    let x1 := b1 % 256; let x2 := b2 % 256; let x3 := b3 % 256
    String.mk [b64Char (x1 / 4), b64Char (x1 % 4 * 16 + x2 / 16),
               b64Char (x2 % 16 * 4 + x3 / 64), b64Char (x3 % 64)] ++
      base64Encode rest
  | [b1, b2] =>
    let x1 := b1 % 256; let x2 := b2 % 256
    String.mk [b64Char (x1 / 4), b64Char (x1 % 4 * 16 + x2 / 16),
               b64Char (x2 % 16 * 4), '=']
  | [b1] =>
    let x1 := b1 % 256
    String.mk [b64Char (x1 / 4), b64Char (x1 % 4 * 16), '=', '=']

/-- Greedy chunking of `b64.match(/.{1,64}/g)`: pieces of 64 characters,
the last piece possibly shorter.  Fuel-indexed to keep it structural. -/
def chunkAux : Nat → List Char → List (List Char)
  | 0, _ => []
  | _ + 1, [] => []
  | n + 1, a :: l => (a :: l).take 64 :: chunkAux n ((a :: l).drop 64)

def chunk64 (l : List Char) : List (List Char) := chunkAux l.length l

/-- JS `lines.join` with a newline separator, on character lists. -/
def joinNL : List (List Char) → List Char
  | [] => []
  | [c] => c
  | c :: cs => c ++ '\n' :: joinNL cs

def beginMarker : String := "-----BEGIN CERTIFICATE-----"
def endMarker : String := "-----END CERTIFICATE-----"

/-- Function `bufferToPem` (source lines 18–24).  On an empty buffer the JS
`"".match(/.{1,64}/g)` is `null` and `.join` throws, hence `none`. -/
def bufferToPem (buf : List Nat) : Option String :=
  match chunk64 (base64Encode buf).data with
  | [] => none
  | cs => some (beginMarker ++ "\n" ++ String.mk (joinNL cs) ++ "\n" ++
                endMarker ++ "\n")

/-! ### Small string scanning helpers (substring, host and SAN parsing) -/

/-- Whether `pat` is an initial segment of `l`. -/
def chListHasPre : List Char → List Char → Bool
  | [], _ => true
  | _ :: _, [] => false
  | a :: as, b :: bs => a == b && chListHasPre as bs

/-- Whether `pat` occurs contiguously inside `l` (`String.prototype.includes`). -/
def chListHasSub (pat : List Char) : List Char → Bool
  | [] => pat.isEmpty
  | a :: rest => chListHasPre pat (a :: rest) || chListHasSub pat rest

def strHasSub (s pat : String) : Bool := chListHasSub pat.data s.data

/-- Suffix test (for the `1$` half of the insecure-flag regex). -/
def chListHasSuf (pat l : List Char) : Bool := chListHasPre pat.reverse l.reverse

/-- Case-insensitive initial-segment test. -/
def ciHasPre (pat l : List Char) : Bool :=
  chListHasPre (pat.map Char.toLower) (l.map Char.toLower)

/-- Test `/^true|1$/i.test s`: the alternation binds loosely, so this is
"starts with `true` (case-insensitively) or ends with `1`" (source lines 44–47). -/
def insecureFlagTest (s : String) : Bool :=
  ciHasPre "true".data s.data || chListHasSuf "1".data s.data

/-- Split on a single character, like `s.split(":")`. -/
def splitOnChar (c : Char) : List Char → List (List Char)
  | [] => [[]]
  | a :: rest =>
    let r := splitOnChar c rest
    if a == c then [] :: r
    else
      match r with
      | [] => [[a]]
      | h :: t => (a :: h) :: t

/-- Regex `/^\d\x7b1,3\x7d$/` on a character list. -/
def isDigit13 (s : List Char) : Bool :=
  decide (1 ≤ s.length) && decide (s.length ≤ 3) && s.all (·.isDigit)

/-- Regex test for a dotted IPv4-looking host. -/
def ipv4Like (l : List Char) : Bool :=
  match splitOnChar '.' l with
  | [a, b, c, d] => isDigit13 a && isDigit13 b && isDigit13 c && isDigit13 d
  | _ => false

/-- Function `isIpHost` (source lines 10–13).  The part before the first `:` is
tested; note that part can never itself contain `:`, so the
`host.includes(":")` disjunct of the source is vacuous. -/
def isIpHost (hostWithPort : String) : Bool :=
  let host := (splitOnChar ':' hostWithPort.data).headD []
  ipv4Like host || host.contains ':'

/-- JS `\s` for the characters that occur in SAN blobs (ASCII whitespace). -/
def isJsSpace (c : Char) : Bool :=
  c == ' ' || c == '\t' || c == '\n' || c == '\r' || c == '\x0b' || c == '\x0c'

/-- Leftmost match of `/DNS:([^,\s]+)/i`: scan for a case-insensitive
`DNS:` followed by at least one non-comma non-space character. -/
def dnsScan : List Char → Option (List Char)
  | [] => none
  | a :: rest =>
    if ciHasPre "DNS:".data (a :: rest) then
      let body := ((a :: rest).drop 4).takeWhile (fun c => !(c == ',') && !isJsSpace c)
      if body.isEmpty then dnsScan rest else some body
    else dnsScan rest

/-- Function `firstDnsFromSAN` (source lines 14–17). -/
def firstDnsFromSAN : Option String → Option String
  | none => none
  | some s => (dnsScan s.data).map String.mk

/-! ### World, effects, certificate provider (source lines 26–89) -/

/-- One observable I/O action. -/
inductive Eff
  | netFetch (host : String)
  | fileExistsCheck (path : String)
  | fileRead (path : String)
  | fileWrite (path : String) (contents : String)
  | poolInit
deriving DecidableEq, Repr

/-- What the driver's `getCertificate` resolves with (`none` components are
absent JS fields); `subject` models `cert.subject?.CN`. -/
structure CertInfo where
  pem : Option String
  raw : Option (List Nat)
  subject : Option String
  san : Option String
deriving DecidableEq, Repr

/-- The environment outside the process: file contents, the response to the
`n`-th certificate fetch (`none` = the fetch rejects), and whether pool
initialisation for a given acquisition attempt succeeds. -/
structure World where
  files : List (String × String)
  netCert : Nat → Option CertInfo
  poolOk : Nat → Bool

/-- Effect log plus the count of certificate fetches performed so far. -/
structure Fx where
  fetches : Nat
  effs : List Eff
deriving DecidableEq, Repr

def fx0 : Fx := ⟨0, []⟩

def logEff (fx : Fx) (e : Eff) : Fx := ⟨fx.fetches, fx.effs ++ [e]⟩

def existsSyncW (w : World) (p : String) : Bool := (w.files.lookup p).isSome

def readFileW (w : World) (p : String) : String := (w.files.lookup p).getD ""

/-- The normalized result of `fetchCert` / `ensureCertificate`. -/
structure TrustMaterial where
  pem : Option String
  raw : Option (List Nat)
  subject : Option String
  san : Option String
deriving DecidableEq, Repr

/-- The value `fetchCert` settles with, as a function of the driver's
response to the `n`-th fetch.  `.error ()` is a thrown JS error: either the
driver's rejection, or the `TypeError` from `bufferToPem` on an empty raw
buffer. -/
def fetchCertResult (w : World) (n : Nat) : Except Unit TrustMaterial :=
  match w.netCert n with
  | none => .error ()
  | some c =>
    let pemE : Except Unit (Option String) :=
      if strTruthy c.pem then .ok c.pem
      else
        match c.raw with
        | some r =>
          match bufferToPem r with
          | some p => .ok (some p)
          | none => .error ()
        | none => .ok none
    match pemE with
    | .error _ => .error ()
    | .ok pem =>
      let raw : Option (List Nat) :=
        match c.raw with
        | some r => some r
        | none => if strTruthy pem then some (strBytes (orEmpty pem)) else none
      .ok ⟨pem, raw, c.subject, c.san⟩

/-- Function `fetchCert` (source lines 26–31): one network fetch, consuming the next
network response and logging the effect. -/
def fetchCert (w : World) (host : String) (fx : Fx) :
    Except Unit TrustMaterial × Fx :=
  (fetchCertResult w fx.fetches,
   ⟨fx.fetches + 1, fx.effs ++ [.netFetch host]⟩)

/-- Function `pemFromEnvOrFile` (source lines 60–65). -/
def pemFromEnvOrFile (w : World) (certPath : Option String) (caPem : String)
    (fx : Fx) : Option String × Fx :=
  if caPem != "" && strHasSub caPem "BEGIN CERTIFICATE" then (some caPem, fx)
  else
    match certPath with
    | some cp =>
      let fx1 := logEff fx (.fileExistsCheck cp)
      if existsSyncW w cp then (some (readFileW w cp), logEff fx1 (.fileRead cp))
      else (none, fx1)
    | none => (none, fx)

/-- The fetch-and-advisory-persist fallback of `ensureCertificate`
(source lines 80–88).  `writeFileSync(path, undefined)` throws before
writing and the `catch {}` swallows it, so a write is logged only when the
fetched certificate actually has a textual PEM. -/
def fetchAndMaybePersist (w : World) (host : String) (certPath : Option String)
    (fx : Fx) : Except Unit TrustMaterial × Fx :=
  match fetchCert w host fx with
  | (.error e, fx1) => (.error e, fx1)
  | (.ok cert, fx1) =>
    let fx2 :=
      match certPath with
      | some cp =>
        match cert.pem with
        | some p => logEff fx1 (.fileWrite cp p)
        | none => fx1
      | none => fx1
    (.ok cert, fx2)

/-- Function `ensureCertificate` (source lines 67–89). -/
def ensureCertificate (w : World) (host : String) (certPath : Option String)
    (inlinePem : Option String) (fx : Fx) : Except Unit TrustMaterial × Fx :=
  if strTruthy inlinePem then
    (.ok ⟨some (orEmpty inlinePem), some (strBytes (orEmpty inlinePem)), none, none⟩, fx)
  else
    match certPath with
    | some cp =>
      let fx1 := logEff fx (.fileExistsCheck cp)
      if existsSyncW w cp then
        let pem := readFileW w cp
        (.ok ⟨some pem, some (strBytes pem), none, none⟩, logEff fx1 (.fileRead cp))
      else fetchAndMaybePersist w host (some cp) fx1
    | none => fetchAndMaybePersist w host none fx

/-- The trust-resolution step of `getDatabaseServer`'s secure branch
(source lines 138–143): inline/file PEM first, then `ensureCertificate`
with the cert path suppressed when an inline/file PEM was found. -/
def resolveTrust (w : World) (host : String) (certPath : Option String)
    (caPem : String) (fx : Fx) : Except Unit TrustMaterial × Fx :=
  let (inlinePem, fx1) := pemFromEnvOrFile w certPath caPem fx
  ensureCertificate w host (if strTruthy inlinePem then none else certPath)
    inlinePem fx1

/-! ### Configuration and the server descriptor builder (source lines 33–172) -/

/-- The raw environment variables read by `readDbEnv`. -/
structure EnvVars where
  dbHost : Option String := none
  db2Host : Option String := none
  dbId : Option String := none
  db2User : Option String := none
  dbPassword : Option String := none
  db2Pass : Option String := none
  dbSni : Option String := none
  db2Sni : Option String := none
  dbCertPath : Option String := none
  dbCaPem : Option String := none
  dbTlsInsecure : Option String := none
  dbLogConfig : Option String := none

/-- The merged configuration produced by `readDbEnv` (source lines 33–58). -/
structure Cfg where
  host : Option String
  user : Option String
  pass : Option String
  sni : String
  certPath : Option String
  caPem : String
  insecure : Bool
  logConfig : Bool

/-- Function `readDbEnv` (source lines 33–58).  `path.join(cwd, p)` is modelled as
`cwd ++ "/" ++ p` (no claim depends on path normalisation). -/
def readDbEnv (e : EnvVars) (cwd : String) : Cfg where
  host := jsOr e.dbHost e.db2Host
  user := jsOr e.dbId e.db2User
  pass := jsOr e.dbPassword e.db2Pass
  sni := orEmpty (jsOr (jsOr e.dbSni e.db2Sni) (some ""))
  certPath :=
    if strTruthy e.dbCertPath then
      let p := orEmpty e.dbCertPath
      some (if chListHasPre "/".data p.data then p else cwd ++ "/" ++ p)
    else none
  caPem := orEmpty (jsOr e.dbCaPem (some ""))
  insecure := insecureFlagTest (orEmpty (jsOr e.dbTlsInsecure (some "false")))
  logConfig := insecureFlagTest (orEmpty (jsOr e.dbLogConfig (some "false")))

/-- The `ca` field's value: a textual PEM or a raw buffer. -/
inductive CaVal
  | pem (s : String)
  | raw (b : List Nat)
deriving DecidableEq, Repr

/-- Value `caValue = cert.pem || cert.raw` with JS truthiness (an empty string is
falsy, any buffer — even empty — is truthy). -/
def caOf (m : TrustMaterial) : Option CaVal :=
  if strTruthy m.pem then some (.pem (orEmpty m.pem))
  else
    match m.raw with
    | some r => some (.raw r)
    | none => none

/-- The connection descriptor built by `getDatabaseServer`; `tls` is the
`tls.servername` override when present. -/
structure ServerDescriptor where
  host : String
  user : String
  password : String
  ca : Option CaVal
  ignoreUnauthorized : Bool
  tls : Option String
deriving DecidableEq, Repr

/-- The insecure-mode descriptor (source lines 116–125). -/
def insecureServer (cfg : Cfg) : ServerDescriptor :=
  let host := orEmpty cfg.host
  let needSni := isIpHost host || cfg.sni != ""
  ⟨host, orEmpty cfg.user, orEmpty cfg.pass, none, true,
   if needSni && cfg.sni != "" then some cfg.sni else none⟩

/-- The secure-mode descriptor built from resolved trust material
(source lines 145–158). -/
def secureServer (cfg : Cfg) (cert : TrustMaterial) : ServerDescriptor :=
  let host := orEmpty cfg.host
  let servername := firstTruthy
    [cfg.sni, orEmpty (firstDnsFromSAN cert.san), orEmpty cert.subject]
  let needSni := isIpHost host ||
    (servername != "" && !chListHasPre servername.data host.data)
  ⟨host, orEmpty cfg.user, orEmpty cfg.pass, caOf cert, false,
   if needSni && servername != "" then some servername else none⟩

/-- Function `getDatabaseServer` (source lines 91–172), as a function of the module
slot `cachedServer`.  Returns (result, new `cachedServer`, effects). -/
def getDatabaseServer (w : World) (e : EnvVars) (cwd : String)
    (cached : Option ServerDescriptor) (fx : Fx) :
    Option ServerDescriptor × Option ServerDescriptor × Fx :=
  match cached with
  | some s => (some s, some s, fx)
  | none =>
    let cfg := readDbEnv e cwd
    if !(strTruthy cfg.host && strTruthy cfg.user && strTruthy cfg.pass) then
      (none, none, fx)
    else
      if cfg.insecure then
        let srv := insecureServer cfg
        (some srv, some srv, fx)
      else
        match resolveTrust w (orEmpty cfg.host) cfg.certPath cfg.caPem fx with
        | (.error _, fx2) => (none, none, fx2)
        | (.ok cert, fx2) =>
          let srv := secureServer cfg cert
          (some srv, some srv, fx2)

/-! ### `Db.connect` (source lines 178–192) -/

/-- The guard of the last-resort fetch: secure mode and no CA present. -/
def needsLastResort (srv : ServerDescriptor) : Bool :=
  !srv.ignoreUnauthorized && srv.ca.isNone

/-- The in-place mutation `Db.connect` performs on the descriptor after its
last-resort fetch: install `ca` and, for an IP host missing a servername,
guess one from the fetched certificate (source lines 183–188).  The final
`server.ignoreUnauthorized = false` assignment is the identity here. -/
def applyLastResort (srv : ServerDescriptor) (cert : TrustMaterial) :
    ServerDescriptor :=
  let srv1 : ServerDescriptor :=
    ⟨srv.host, srv.user, srv.password, caOf cert, srv.ignoreUnauthorized, srv.tls⟩
  let tlsMissing :=
    match srv.tls with
    | none => true
    | some s => s == ""
  if tlsMissing && isIpHost srv.host then
    let guess := firstTruthy
      [orEmpty (firstDnsFromSAN cert.san), orEmpty cert.subject]
    if guess != "" then
      ⟨srv1.host, srv1.user, srv1.password, srv1.ca, srv1.ignoreUnauthorized,
       some guess⟩
    else srv1
  else srv1

/-- Method `Db.connect` run to completion (source lines 178–192): the last-resort
certificate fetch when needed, then pool initialisation.  Returns the
descriptor as left after connect's in-place mutations.  `attemptId`
selects this attempt's pool outcome in the world. -/
def dbConnect (w : World) (server : Option ServerDescriptor) (attemptId : Nat)
    (fx : Fx) : Except Unit ServerDescriptor × Fx :=
  match server with
  | none => (.error (), fx)
  | some srv =>
    let afterFetch : Except Unit ServerDescriptor × Fx :=
      if needsLastResort srv then
        match fetchCert w srv.host fx with
        | (.error _, fx1) => (.error (), fx1)
        | (.ok cert, fx1) => (.ok (applyLastResort srv cert), fx1)
      else (.ok srv, fx)
    match afterFetch with
    | (.error e, fx1) => (.error e, fx1)
    | (.ok srv1, fx1) =>
      let fx2 := logEff fx1 .poolInit
      if w.poolOk attemptId then (.ok srv1, fx2) else (.error (), fx2)

/-! ### The lazy singleton with invalidation and single-flight
(source lines 199–230), as a small-step machine.

Each acquisition attempt is the async arrow function of `getDb`; its body
suspends at `await getDatabaseServer()`, at `await fetchCert(...)` inside
`Db.connect`'s last-resort branch, and at `await pool.init()`.  A `resume`
event runs one such suspension to its next suspension point as one atomic
block.  The attempt's local `server` variable aliases the module slot
`cachedServer` (the builder returns the very object it caches), so
`Db.connect`'s in-place mutation is modelled as updating `cachedServer`.
Handles are identified by the id of the attempt that created them. -/

/-- Where an in-flight acquisition attempt is suspended. -/
inductive APhase
  | atServer
  | atFetchCert
  | atPoolInit
deriving DecidableEq, Repr

/-- What a `getDb()` caller holds: the in-flight promise of attempt `a`, or
a settled result (`none` = the explicit unavailable result). -/
inductive CallRes
  | waiting (a : Nat)
  | done (r : Option Nat)
deriving DecidableEq, Repr

/-- The process-wide state: the three module slots, the in-flight attempt
tasks, each caller's view, the attempt counter and the effect log. -/
structure SysState where
  cachedServer : Option ServerDescriptor
  cachedDb : Option Nat
  connecting : Option Nat
  tasks : List (Nat × APhase)
  results : List (Nat × CallRes)
  nextAttempt : Nat
  fx : Fx
deriving Repr

def initState : SysState := ⟨none, none, none, [], [], 0, fx0⟩

/-- Scheduler events: a `getDb()` call by caller `c`, resumption of the
pending await of attempt `a`, or an `invalidateDb()` call. -/
inductive Ev
  | call (c : Nat)
  | resume (a : Nat)
  | invalidate
deriving DecidableEq, Repr

/-- Association lookup by `Nat` key. -/
def lookupN {β : Type} (a : Nat) : List (Nat × β) → Option β
  | [] => none
  | (k, v) :: rest => if k = a then some v else lookupN a rest

/-- Replace the phase of attempt `a`. -/
def setTask {β : Type} (a : Nat) (ph : β) : List (Nat × β) → List (Nat × β)
  | [] => []
  | (k, v) :: rest => (if k = a then (a, ph) else (k, v)) :: setTask a ph rest

/-- Remove attempt `a` once it has settled. -/
def removeTask {β : Type} (a : Nat) : List (Nat × β) → List (Nat × β)
  | [] => []
  | (k, v) :: rest =>
    if k = a then removeTask a rest else (k, v) :: removeTask a rest

/-- Deliver attempt `a`'s settled value to every caller awaiting it. -/
def settleResults (a : Nat) (r : Option Nat) :
    List (Nat × CallRes) → List (Nat × CallRes)
  | [] => []
  | (k, v) :: rest =>
    (if v = CallRes.waiting a then (k, CallRes.done r) else (k, v)) ::
      settleResults a r rest

/-- One scheduler step. -/
def step (w : World) (e : EnvVars) (cwd : String) (s : SysState) : Ev → SysState
  | .invalidate =>
    { s with cachedDb := none, connecting := none }
  | .call c =>
    match s.cachedDb with
    | some h => { s with results := s.results ++ [(c, .done (some h))] }
    | none =>
      match s.connecting with
      | some a => { s with results := s.results ++ [(c, .waiting a)] }
      | none =>
        let i := s.nextAttempt
        { s with connecting := some i,
                 tasks := s.tasks ++ [(i, .atServer)],
                 results := s.results ++ [(c, .waiting i)],
                 nextAttempt := i + 1 }
  | .resume a =>
    match lookupN a s.tasks with
    | none => s
    | some .atServer =>
      match getDatabaseServer w e cwd s.cachedServer s.fx with
      | (none, nc, fx') =>
        -- `if (!server) return null` and the `finally` clears `connecting`.
        { s with cachedServer := nc, fx := fx', connecting := none,
                 tasks := removeTask a s.tasks,
                 results := settleResults a none s.results }
      | (some srv, nc, fx') =>
        if needsLastResort srv then
          { s with cachedServer := nc, fx := fx',
                   tasks := setTask a .atFetchCert s.tasks }
        else
          { s with cachedServer := nc, fx := fx',
                   tasks := setTask a .atPoolInit s.tasks }
    | some .atFetchCert =>
      match s.cachedServer with
      | none => s
      | some srv =>
        match fetchCert w srv.host s.fx with
        | (.error _, fx') =>
          -- the thrown error reaches the `catch`, then the `finally`.
          { s with fx := fx', cachedDb := none, connecting := none,
                   tasks := removeTask a s.tasks,
                   results := settleResults a none s.results }
        | (.ok cert, fx') =>
          { s with fx := fx', cachedServer := some (applyLastResort srv cert),
                   tasks := setTask a .atPoolInit s.tasks }
    | some .atPoolInit =>
      let fx' := logEff s.fx .poolInit
      if w.poolOk a then
        { s with fx := fx', cachedDb := some a, connecting := none,
                 tasks := removeTask a s.tasks,
                 results := settleResults a (some a) s.results }
      else
        { s with fx := fx', cachedDb := none, connecting := none,
                 tasks := removeTask a s.tasks,
                 results := settleResults a none s.results }

/-- Run the machine from `s` over an event sequence. -/
def runFrom (w : World) (e : EnvVars) (cwd : String) (s : SysState)
    (evs : List Ev) : SysState :=
  evs.foldl (step w e cwd) s

/-! ### Facts about base64 chunking -/

theorem chunkAux_nil (n : Nat) : chunkAux n [] = [] := by
  cases n <;> rfl

theorem chunkAux_flatten (n : Nat) (l : List Char) (h : l.length ≤ n) :
    (chunkAux n l).flatten = l := by
  induction n generalizing l with
  | zero =>
    cases l with
    | nil => rfl
    | cons a l => simp at h
  | succ n ih =>
    cases l with
    | nil => rfl
    | cons a l =>
      show ((a :: l).take 64 :: chunkAux n ((a :: l).drop 64)).flatten = a :: l
      rw [List.flatten_cons, ih ((a :: l).drop 64) (by rw [List.length_drop]; omega)]
      exact List.take_append_drop 64 (a :: l)

theorem chunkAux_mem (n : Nat) (l c : List Char) (hc : c ∈ chunkAux n l) :
    c ≠ [] ∧ c.length ≤ 64 := by
  induction n generalizing l with
  | zero => simp [chunkAux] at hc
  | succ n ih =>
    cases l with
    | nil => simp [chunkAux] at hc
    | cons a l =>
      rcases List.mem_cons.1 hc with rfl | hc
      · refine ⟨?_, ?_⟩
        · intro hnil
          have : ((a :: l).take 64).length = min 64 (a :: l).length :=
            List.length_take 64 (a :: l)
          rw [hnil] at this
          simp only [List.length_nil, List.length_cons] at this
          omega
        · rw [List.length_take]
          omega
      · exact ih _ hc

theorem chunkAux_dropLast (n : Nat) (l : List Char) (h : l.length ≤ n)
    (c : List Char) (hc : c ∈ (chunkAux n l).dropLast) : c.length = 64 := by
  induction n generalizing l with
  | zero => simp [chunkAux] at hc
  | succ n ih =>
    cases l with
    | nil => simp [chunkAux] at hc
    | cons a l =>
      have hstep : chunkAux (n + 1) (a :: l) =
          (a :: l).take 64 :: chunkAux n ((a :: l).drop 64) := rfl
      by_cases hd : (a :: l).drop 64 = []
      · rw [hstep, hd, chunkAux_nil] at hc
        simp at hc
      · have hlen : 64 < (a :: l).length := by
          by_contra hle
          push_neg at hle
          exact hd (List.drop_eq_nil_of_le hle)
        have htail : chunkAux n ((a :: l).drop 64) ≠ [] := by
          cases n with
          | zero => omega
          | succ m =>
            cases hdd : (a :: l).drop 64 with
            | nil => exact absurd hdd hd
            | cons b bs => simp [chunkAux, hdd]
        rw [hstep] at hc
        cases hck : chunkAux n ((a :: l).drop 64) with
        | nil => exact absurd hck htail
        | cons d ds =>
          rw [hck, List.dropLast_cons₂] at hc
          rcases List.mem_cons.1 hc with rfl | hc
          · rw [List.length_take]
            omega
          · exact ih ((a :: l).drop 64) (by rw [List.length_drop]; omega) (by rw [hck]; exact hc)

theorem base64_data_ne_nil (b : Nat) (bs : List Nat) :
    (base64Encode (b :: bs)).data ≠ [] := by
  match bs with
  | [] => simp [base64Encode]
  | [b2] => simp [base64Encode]
  | b2 :: b3 :: rest =>
    show (String.mk _ ++ base64Encode rest).data ≠ []
    simp [String.data_append]

/-- Function `bufferToPem` succeeds on every nonempty buffer. -/
theorem bufferToPem_ne_none (b : Nat) (bs : List Nat) :
    ∃ p, bufferToPem (b :: bs) = some p := by
  unfold bufferToPem
  cases hck : chunk64 (base64Encode (b :: bs)).data with
  | nil =>
    exfalso
    apply base64_data_ne_nil b bs
    have := chunkAux_flatten (base64Encode (b :: bs)).data.length
      (base64Encode (b :: bs)).data le_rfl
    rw [show chunk64 (base64Encode (b :: bs)).data =
          chunkAux (base64Encode (b :: bs)).data.length
            (base64Encode (b :: bs)).data from rfl] at hck
    rw [hck] at this
    simpa using this.symm
  | cons d ds => exact ⟨_, rfl⟩

/-! ### Association-list facts for the machine state -/

theorem lookupN_append {β : Type} (a : Nat) (l1 l2 : List (Nat × β)) :
    lookupN a (l1 ++ l2) =
      match lookupN a l1 with
      | some v => some v
      | none => lookupN a l2 := by
  induction l1 with
  | nil => rfl
  | cons p l1 ih =>
    by_cases hk : p.1 = a
    · simp [lookupN, hk]
    · simp [lookupN, hk, ih]

theorem lookupN_map_const {β : Type} (a : Nat) (v : β) (cs : List Nat)
    (h : a ∈ cs) : lookupN a (cs.map fun c => (c, v)) = some v := by
  induction cs with
  | nil => simp at h
  | cons c cs ih =>
    rcases List.mem_cons.1 h with rfl | h
    · simp [lookupN]
    · by_cases hc : c = a
      · simp [lookupN, hc]
      · simp [lookupN, hc, ih h]

theorem lookupN_settleResults (c a : Nat) (r : Option Nat)
    (l : List (Nat × CallRes)) :
    lookupN c (settleResults a r l) =
      (lookupN c l).map fun res =>
        if res = CallRes.waiting a then CallRes.done r else res := by
  induction l with
  | nil => rfl
  | cons p l ih =>
    obtain ⟨k, v⟩ := p
    by_cases hw : v = CallRes.waiting a
    · rw [show settleResults a r ((k, v) :: l) =
        (k, CallRes.done r) :: settleResults a r l by
          simp [settleResults, if_pos hw]]
      by_cases hk : k = c
      · simp [lookupN, hk, hw]
      · simp [lookupN, hk, ih]
    · rw [show settleResults a r ((k, v) :: l) = (k, v) :: settleResults a r l by
        simp [settleResults, if_neg hw]]
      by_cases hk : k = c
      · simp [lookupN, hk, hw]
      · simp [lookupN, hk, ih]

theorem lookupN_setTask {β : Type} (b a : Nat) (ph : β) (ts : List (Nat × β)) :
    lookupN b (setTask a ph ts) =
      if b = a then (lookupN a ts).map fun _ => ph else lookupN b ts := by
  induction ts with
  | nil => simp [setTask, lookupN]
  | cons p ts ih =>
    obtain ⟨k, v⟩ := p
    by_cases hk : k = a
    · rw [show setTask a ph ((k, v) :: ts) = (a, ph) :: setTask a ph ts by
        simp [setTask, if_pos hk]]
      by_cases hb : b = a
      · simp [lookupN, hb, hk]
      · have hab : ¬a = b := fun h => hb h.symm
        subst hk
        simp [lookupN, hab, hb, ih]
    · rw [show setTask a ph ((k, v) :: ts) = (k, v) :: setTask a ph ts by
        simp [setTask, if_neg hk]]
      by_cases hb : k = b
      · have : ¬b = a := fun h => hk (hb.symm ▸ h ▸ rfl)
        simp [lookupN, hb, this]
      · simp [lookupN, hb, hk, ih]

theorem lookupN_removeTask {β : Type} (b a : Nat) (ts : List (Nat × β)) :
    lookupN b (removeTask a ts) =
      if b = a then none else lookupN b ts := by
  induction ts with
  | nil => simp [removeTask, lookupN]
  | cons p ts ih =>
    obtain ⟨k, v⟩ := p
    by_cases hk : k = a
    · rw [show removeTask a ((k, v) :: ts) = removeTask a ts by
        simp [removeTask, if_pos hk]]
      by_cases hb : b = a
      · simp [hb] at ih ⊢; exact ih
      · have hab : ¬a = b := fun h => hb h.symm
        subst hk
        simp [hb] at ih ⊢
        rw [ih]
        simp [lookupN, hab]
    · rw [show removeTask a ((k, v) :: ts) = (k, v) :: removeTask a ts by
        simp [removeTask, if_neg hk]]
      by_cases hb : k = b
      · have : ¬b = a := fun h => hk (hb.symm ▸ h ▸ rfl)
        simp [lookupN, hb, this]
      · simp [lookupN, hb, ih]

/-! ### Generic step facts -/

theorem step_resume_nextAttempt (w : World) (e : EnvVars) (cwd : String)
    (s : SysState) (a : Nat) :
    (step w e cwd s (Ev.resume a)).nextAttempt = s.nextAttempt := by
  cases h : lookupN a s.tasks with
  | none => simp [step, h]
  | some ph =>
    cases ph with
    | atServer =>
      rcases hg : getDatabaseServer w e cwd s.cachedServer s.fx with ⟨res, nc, fx'⟩
      cases res with
      | none => simp [step, h, hg]
      | some srv =>
        by_cases hn : needsLastResort srv = true <;> simp [step, h, hg, hn]
    | atFetchCert =>
      cases hc : s.cachedServer with
      | none => simp [step, h, hc]
      | some srv =>
        rcases hf : fetchCert w srv.host s.fx with ⟨r, fx'⟩
        cases r with
        | error u => simp [step, h, hc, hf]
        | ok cert => simp [step, h, hc, hf]
    | atPoolInit =>
      by_cases hp : w.poolOk a = true <;> simp [step, h, hp]

theorem step_invalidate_nextAttempt (w : World) (e : EnvVars) (cwd : String)
    (s : SysState) :
    (step w e cwd s Ev.invalidate).nextAttempt = s.nextAttempt := rfl

/-- The two cache slots are never simultaneously occupied. -/
def slotsOk (s : SysState) : Prop :=
  ¬(s.cachedDb.isSome = true ∧ s.connecting.isSome = true)

theorem step_slotsOk (w : World) (e : EnvVars) (cwd : String) (s : SysState)
    (ev : Ev) (h : slotsOk s) : slotsOk (step w e cwd s ev) := by
  cases ev with
  | invalidate => simp [slotsOk, step]
  | call c =>
    cases hdb : s.cachedDb with
    | some v => simpa [slotsOk, step, hdb] using h
    | none =>
      cases hcon : s.connecting with
      | some a => simp [slotsOk, step, hdb, hcon]
      | none => simp [slotsOk, step, hdb, hcon]
  | resume a =>
    cases ht : lookupN a s.tasks with
    | none =>
      rw [show step w e cwd s (Ev.resume a) = s by simp [step, ht]]
      exact h
    | some ph =>
      cases ph with
      | atServer =>
        rcases hg : getDatabaseServer w e cwd s.cachedServer s.fx with ⟨res, nc, fx'⟩
        cases res with
        | none => simp [slotsOk, step, ht, hg]
        | some srv =>
          by_cases hn : needsLastResort srv = true <;>
            simpa [slotsOk, step, ht, hg, hn] using h
      | atFetchCert =>
        cases hc : s.cachedServer with
        | none =>
          rw [show step w e cwd s (Ev.resume a) = s by simp [step, ht, hc]]
          exact h
        | some srv =>
          rcases hf : fetchCert w srv.host s.fx with ⟨r, fx'⟩
          cases r with
          | error u => simp [slotsOk, step, ht, hc, hf]
          | ok cert => simpa [slotsOk, step, ht, hc, hf] using h
      | atPoolInit =>
        by_cases hp : w.poolOk a = true <;> simp [slotsOk, step, ht, hp]

theorem runFrom_slotsOk (w : World) (e : EnvVars) (cwd : String) (s : SysState)
    (evs : List Ev) (h : slotsOk s) : slotsOk (runFrom w e cwd s evs) := by
  induction evs generalizing s with
  | nil => exact h
  | cons ev evs ih => exact ih _ (step_slotsOk w e cwd s ev h)

/-- The three legal shapes of the process-wide cache. -/
inductive CachePhase
  | cold
  | warming
  | warm
deriving DecidableEq, Repr

/-- Classify the two slots; `none` is the illegal fourth shape. -/
def phaseOf (s : SysState) : Option CachePhase :=
  match s.cachedDb, s.connecting with
  | none, none => some .cold
  | none, some _ => some .warming
  | some _, none => some .warm
  | some _, some _ => none

theorem runFrom_append (w : World) (e : EnvVars) (cwd : String) (s : SysState)
    (l1 l2 : List Ev) :
    runFrom w e cwd s (l1 ++ l2) = runFrom w e cwd (runFrom w e cwd s l1) l2 :=
  List.foldl_append _ _ _ _

theorem runFrom_cons (w : World) (e : EnvVars) (cwd : String) (s : SysState)
    (ev : Ev) (evs : List Ev) :
    runFrom w e cwd s (ev :: evs) = runFrom w e cwd (step w e cwd s ev) evs := rfl

theorem resume_noop (w : World) (e : EnvVars) (cwd : String) (s : SysState)
    (a : Nat) (h : lookupN a s.tasks = none) :
    step w e cwd s (Ev.resume a) = s := by
  simp [step, h]

theorem runFrom_resume_noop (w : World) (e : EnvVars) (cwd : String)
    (s : SysState) (a : Nat) (rs : List Ev)
    (hall : ∀ ev ∈ rs, ev = Ev.resume a) (h : lookupN a s.tasks = none) :
    runFrom w e cwd s rs = s := by
  induction rs with
  | nil => rfl
  | cons ev rs ih =>
    have he : ev = Ev.resume a := hall ev (List.mem_cons_self _ _)
    subst he
    rw [runFrom_cons, resume_noop w e cwd s a h]
    exact ih fun ev hev => hall ev (List.mem_cons_of_mem _ hev)

/-- While an acquisition is in flight, `getDb()` calls only append waiters:
no new attempt, no effects, no slot change. -/
theorem runFrom_calls_waiting (w : World) (e : EnvVars) (cwd : String)
    (s : SysState) (a : Nat) (cs : List Nat)
    (hdb : s.cachedDb = none) (hcon : s.connecting = some a) :
    runFrom w e cwd s (cs.map Ev.call) =
      { s with results := s.results ++ cs.map fun c => (c, CallRes.waiting a) } := by
  induction cs generalizing s with
  | nil => simp [runFrom]
  | cons c cs ih =>
    rw [List.map_cons, runFrom_cons,
      show step w e cwd s (Ev.call c) =
        { s with results := s.results ++ [(c, CallRes.waiting a)] } by
          simp [step, hdb, hcon]]
    rw [ih { s with results := s.results ++ [(c, CallRes.waiting a)] } hdb hcon]
    simp

/-- Once a settling transition has happened, any further resumes of the
settled attempt are no-ops, and every waiter holds the settled value. -/
theorem settle_conclusion (w : World) (e : EnvVars) (cwd : String)
    (rs : List Ev) (a : Nat) (r : Option Nat) (s s1 : SysState)
    (hall : ∀ ev ∈ rs, ev = Ev.resume a)
    (h1 : s1.connecting = none)
    (h2 : s1.nextAttempt = s.nextAttempt)
    (h3 : s1.tasks = removeTask a s.tasks)
    (h4 : s1.results = settleResults a r s.results) :
    ∃ r' : Option Nat,
      (runFrom w e cwd s1 rs).connecting = none ∧
      (runFrom w e cwd s1 rs).nextAttempt = s.nextAttempt ∧
      ∀ c, lookupN c s.results = some (CallRes.waiting a) →
        lookupN c (runFrom w e cwd s1 rs).results = some (CallRes.done r') := by
  have hnone : lookupN a s1.tasks = none := by
    rw [h3, lookupN_removeTask]; simp
  rw [runFrom_resume_noop w e cwd s1 a rs hall hnone]
  refine ⟨r, h1, h2, fun c hc => ?_⟩
  rw [h4, lookupN_settleResults, hc]
  simp

/-- Resuming an unsettled attempt `a` through an all-`resume a` schedule
that ends with `a` settled: the in-flight reference ends cleared, no new
attempt is created, and all of `a`'s waiters agree on one result. -/
theorem runFrom_resumes_settle (w : World) (e : EnvVars) (cwd : String)
    (a : Nat) (rs : List Ev) :
    ∀ s : SysState, (∀ ev ∈ rs, ev = Ev.resume a) →
    lookupN a (runFrom w e cwd s rs).tasks = none →
    lookupN a s.tasks ≠ none →
    ∃ r : Option Nat,
      (runFrom w e cwd s rs).connecting = none ∧
      (runFrom w e cwd s rs).nextAttempt = s.nextAttempt ∧
      ∀ c, lookupN c s.results = some (CallRes.waiting a) →
        lookupN c (runFrom w e cwd s rs).results = some (CallRes.done r) := by
  induction rs with
  | nil => exact fun s _ hset hns => absurd hset hns
  | cons ev rs ih =>
    intro s hall hset hns
    have he : ev = Ev.resume a := hall ev (List.mem_cons_self _ _)
    subst he
    have hall' : ∀ ev ∈ rs, ev = Ev.resume a :=
      fun ev hev => hall ev (List.mem_cons_of_mem _ hev)
    rw [runFrom_cons] at hset ⊢
    cases ht : lookupN a s.tasks with
    | none => exact absurd ht hns
    | some ph =>
      cases ph with
      | atServer =>
        rcases hg : getDatabaseServer w e cwd s.cachedServer s.fx with ⟨res, nc, fx'⟩
        cases res with
        | none =>
          rw [show step w e cwd s (Ev.resume a) =
              { s with cachedServer := nc, fx := fx', connecting := none,
                       tasks := removeTask a s.tasks,
                       results := settleResults a none s.results } by
            simp [step, ht, hg]] at hset ⊢
          exact settle_conclusion w e cwd rs a none s _ hall' rfl rfl rfl rfl
        | some srv =>
          by_cases hn : needsLastResort srv = true
          · rw [show step w e cwd s (Ev.resume a) =
                { s with cachedServer := nc, fx := fx',
                         tasks := setTask a .atFetchCert s.tasks } by
              simp [step, ht, hg, hn]] at hset ⊢
            rcases ih _ hall' hset (by simp [lookupN_setTask, ht]) with
              ⟨r, hc1, hc2, hc3⟩
            exact ⟨r, hc1, hc2, hc3⟩
          · rw [show step w e cwd s (Ev.resume a) =
                { s with cachedServer := nc, fx := fx',
                         tasks := setTask a .atPoolInit s.tasks } by
              simp [step, ht, hg, hn]] at hset ⊢
            rcases ih _ hall' hset (by simp [lookupN_setTask, ht]) with
              ⟨r, hc1, hc2, hc3⟩
            exact ⟨r, hc1, hc2, hc3⟩
      | atFetchCert =>
        cases hc : s.cachedServer with
        | none =>
          rw [show step w e cwd s (Ev.resume a) = s by simp [step, ht, hc]] at hset ⊢
          exact ih s hall' hset hns
        | some srv =>
          rcases hf : fetchCert w srv.host s.fx with ⟨fr, fx'⟩
          cases fr with
          | error u =>
            rw [show step w e cwd s (Ev.resume a) =
                { s with fx := fx', cachedDb := none, connecting := none,
                         tasks := removeTask a s.tasks,
                         results := settleResults a none s.results } by
              simp [step, ht, hc, hf]] at hset ⊢
            exact settle_conclusion w e cwd rs a none s _ hall' rfl rfl rfl rfl
          | ok cert =>
            rw [show step w e cwd s (Ev.resume a) =
                { s with fx := fx',
                         cachedServer := some (applyLastResort srv cert),
                         tasks := setTask a .atPoolInit s.tasks } by
              simp [step, ht, hc, hf]] at hset ⊢
            rcases ih _ hall' hset (by simp [lookupN_setTask, ht]) with
              ⟨r, hc1, hc2, hc3⟩
            exact ⟨r, hc1, hc2, hc3⟩
      | atPoolInit =>
        by_cases hp : w.poolOk a = true
        · rw [show step w e cwd s (Ev.resume a) =
              { s with fx := logEff s.fx .poolInit, cachedDb := some a,
                       connecting := none,
                       tasks := removeTask a s.tasks,
                       results := settleResults a (some a) s.results } by
            simp [step, ht, hp]] at hset ⊢
          exact settle_conclusion w e cwd rs a (some a) s _ hall' rfl rfl rfl rfl
        · rw [show step w e cwd s (Ev.resume a) =
              { s with fx := logEff s.fx .poolInit, cachedDb := none,
                       connecting := none,
                       tasks := removeTask a s.tasks,
                       results := settleResults a none s.results } by
            simp [step, ht, hp]] at hset ⊢
          exact settle_conclusion w e cwd rs a none s _ hall' rfl rfl rfl rfl

theorem phaseOf_isSome_of_slotsOk (s : SysState) (h : slotsOk s) :
    (phaseOf s).isSome = true := by
  cases hdb : s.cachedDb with
  | none => cases hcon : s.connecting with
    | none => simp [phaseOf, hdb, hcon]
    | some a => simp [phaseOf, hdb, hcon]
  | some v => cases hcon : s.connecting with
    | none => simp [phaseOf, hdb, hcon]
    | some a => exact absurd ⟨by simp [hdb], by simp [hcon]⟩ h

/-! ### Concrete fixtures used by witnesses and counterexamples -/

/-- A driver response carrying a (nonempty, hence truthy) textual PEM. -/
def goodCert : CertInfo := ⟨some "X", none, none, none⟩

/-- A driver response that resolves but carries no certificate data. -/
def emptyCertInfo : CertInfo := ⟨none, none, none, none⟩

def envInsecure : EnvVars :=
  { dbHost := some "h:1", dbId := some "u", dbPassword := some "p",
    dbTlsInsecure := some "true" }

def envSecure : EnvVars :=
  { dbHost := some "h:1", dbId := some "u", dbPassword := some "p" }

def envNoPass : EnvVars := { dbHost := some "h:1", dbId := some "u" }

/-- Reachable network and pool, no certificate files on disk. -/
def wGood : World := ⟨[], fun _ => some goodCert, fun _ => true⟩

/-- First fetch resolves with no certificate data, later fetches succeed. -/
def wLateCert : World :=
  ⟨[], fun n => if n = 0 then some emptyCertInfo else some goodCert,
   fun _ => true⟩

/-- Pool initialisation fails exactly for attempt 0. -/
def wPoolFlaky : World := ⟨[], fun _ => some goodCert, fun a => a != 0⟩

/-- Every certificate fetch is rejected (unreachable endpoint). -/
def wUnreachable : World := ⟨[], fun _ => none, fun _ => true⟩

/-! ### Claim theorems -/

/-- C3: under any interleaving of `getDb()` and `invalidateDb()` events the
two module slots are in exactly one of the three shapes cold / warming /
warm (never both occupied), and an `invalidateDb()` forces the state back
to cold from any reachable state. -/
theorem c3_cache_phases (w : World) (e : EnvVars) (cwd : String)
    (evs : List Ev) :
    (phaseOf (runFrom w e cwd initState evs)).isSome = true ∧
    phaseOf (runFrom w e cwd initState (evs ++ [Ev.invalidate])) =
      some CachePhase.cold := by
  constructor
  · exact phaseOf_isSome_of_slotsOk _
      (runFrom_slotsOk w e cwd initState evs (by simp [slotsOk, initState]))
  · rw [runFrom_append]
    show phaseOf (step w e cwd (runFrom w e cwd initState evs) Ev.invalidate) =
      some CachePhase.cold
    simp [step, phaseOf]

/-- C1: while an acquisition attempt `a` is in flight and unsettled, any
number of further `getDb()` calls create no additional attempt, perform no
I/O, and all await attempt `a`; when `a` then settles, every one of those
callers holds the identical result and the in-flight reference is
cleared. -/
theorem c1_single_flight (w : World) (e : EnvVars) (cwd : String)
    (s : SysState) (a : Nat) (cs : List Nat) (rs : List Ev)
    (hdb : s.cachedDb = none)
    (hcon : s.connecting = some a)
    (htask : lookupN a s.tasks ≠ none)
    (hfresh : ∀ c ∈ cs, lookupN c s.results = none)
    (hrs : ∀ ev ∈ rs, ev = Ev.resume a)
    (hsettled :
      lookupN a (runFrom w e cwd (runFrom w e cwd s (cs.map Ev.call)) rs).tasks
        = none) :
    (runFrom w e cwd s (cs.map Ev.call)).nextAttempt = s.nextAttempt ∧
    (runFrom w e cwd s (cs.map Ev.call)).tasks = s.tasks ∧
    (runFrom w e cwd s (cs.map Ev.call)).fx = s.fx ∧
    (∀ c ∈ cs, lookupN c (runFrom w e cwd s (cs.map Ev.call)).results =
      some (CallRes.waiting a)) ∧
    ∃ r : Option Nat,
      (runFrom w e cwd (runFrom w e cwd s (cs.map Ev.call)) rs).connecting
        = none ∧
      (runFrom w e cwd (runFrom w e cwd s (cs.map Ev.call)) rs).nextAttempt
        = s.nextAttempt ∧
      ∀ c ∈ cs,
        lookupN c
          (runFrom w e cwd (runFrom w e cwd s (cs.map Ev.call)) rs).results =
          some (CallRes.done r) := by
  have hcalls := runFrom_calls_waiting w e cwd s a cs hdb hcon
  have hwait : ∀ c ∈ cs,
      lookupN c (runFrom w e cwd s (cs.map Ev.call)).results =
        some (CallRes.waiting a) := by
    intro c hc
    rw [hcalls]
    show lookupN c (s.results ++ cs.map fun c => (c, CallRes.waiting a)) = _
    rw [lookupN_append, hfresh c hc]
    simpa using lookupN_map_const c _ cs hc
  have htask1 : lookupN a (runFrom w e cwd s (cs.map Ev.call)).tasks ≠ none := by
    rw [hcalls]; exact htask
  rcases runFrom_resumes_settle w e cwd a rs
      (runFrom w e cwd s (cs.map Ev.call)) hrs hsettled htask1 with
    ⟨r, h1, h2, h3⟩
  refine ⟨by rw [hcalls], by rw [hcalls], by rw [hcalls], hwait, r, h1, ?_, ?_⟩
  · rw [h2, hcalls]
  · exact fun c hc => h3 c (hwait c hc)

/-- Witness for C1 at a concrete warming state: two concurrent callers both
receive the result of the single in-flight attempt. -/
theorem c1_single_flight_witness :
    (runFrom wGood envInsecure "/" initState [Ev.call 0]).cachedDb = none ∧
    (runFrom wGood envInsecure "/" initState [Ev.call 0]).connecting = some 0 ∧
    ∃ r : Option Nat,
      (runFrom wGood envInsecure "/"
        (runFrom wGood envInsecure "/"
          (runFrom wGood envInsecure "/" initState [Ev.call 0])
          ([1, 2].map Ev.call))
        [Ev.resume 0, Ev.resume 0]).connecting = none ∧
      ∀ c ∈ [1, 2],
        lookupN c
          (runFrom wGood envInsecure "/"
            (runFrom wGood envInsecure "/"
              (runFrom wGood envInsecure "/" initState [Ev.call 0])
              ([1, 2].map Ev.call))
            [Ev.resume 0, Ev.resume 0]).results = some (CallRes.done r) := by
  refine ⟨by decide, by decide, ?_⟩
  rcases c1_single_flight wGood envInsecure "/"
      (runFrom wGood envInsecure "/" initState [Ev.call 0]) 0 [1, 2]
      [Ev.resume 0, Ev.resume 0] (by decide) (by decide) (by decide)
      (by decide) (by decide) (by decide) with ⟨_, _, _, _, r, h1, _, h3⟩
  exact ⟨r, h1, h3⟩

theorem chunk64_ne_nil (l : List Char) (h : l ≠ []) : chunk64 l ≠ [] := by
  intro hck
  apply h
  have hfl := chunkAux_flatten l.length l le_rfl
  rw [show chunk64 l = chunkAux l.length l from rfl] at hck
  rw [hck] at hfl
  simpa using hfl.symm

theorem strTruthy_ne_none (o : Option String) (h : strTruthy o = true) :
    o ≠ none := by
  cases o with
  | none => simp [strTruthy] at h
  | some s => simp

/-- The driver resolves with a textual PEM that is not in the wrapped
base64 format (no markers, no 64-character lines). -/
def wGarbagePem : World :=
  ⟨[], fun _ => some ⟨some "garbage", none, none, none⟩, fun _ => true⟩

/-- The driver resolves with raw bytes only. -/
def wRawOnly : World :=
  ⟨[], fun _ => some ⟨none, some [1, 2, 3], none, none⟩, fun _ => true⟩

/-- C10 (counterexample): converting the 3-byte certificate `[1, 2, 3]`
yields the single base64 body line `AQID`, whose length is 4, not 64 — the
output is not made of lines of exactly 64 base64 characters.  And the
on-disk cache file persisted from a live fetch is written verbatim from
the fetched `pem` field: when the driver supplies its own PEM text, the
persisted content is that text unchanged — here `garbage`, which does not
even contain the begin/end certificate markers, let alone 64-character
lines. -/
theorem c10_pem_format_counterexample :
    (bufferToPem [1, 2, 3] =
      some "-----BEGIN CERTIFICATE-----\nAQID\n-----END CERTIFICATE-----\n" ∧
     "AQID".length ≠ 64) ∧
    ((fetchAndMaybePersist wGarbagePem "h:1" (some "/c.pem") fx0).2.effs =
      [Eff.netFetch "h:1", Eff.fileWrite "/c.pem" "garbage"] ∧
     strHasSub "garbage" "BEGIN CERTIFICATE" = false) := by
  exact ⟨⟨by decide, by decide⟩, ⟨by decide, by decide⟩⟩

/-- C10 (amended): for every nonempty raw certificate, `bufferToPem` emits
the base64 encoding split into nonempty lines of at most 64 characters —
every line except possibly the last exactly 64 — between the begin/end
markers, with a trailing newline; and the on-disk cache file persisted
from a live fetch is byte-identical to the fetched certificate's textual
PEM: exactly this `bufferToPem` output when the driver supplied only raw
bytes, and the driver's own PEM text verbatim otherwise. -/
theorem c10_pem_format_amended (buf : List Nat) (h : buf ≠ []) :
    bufferToPem buf = some (beginMarker ++ "\n" ++
      String.mk (joinNL (chunk64 (base64Encode buf).data)) ++ "\n" ++
      endMarker ++ "\n") ∧
    (chunk64 (base64Encode buf).data).flatten = (base64Encode buf).data ∧
    (∀ c ∈ chunk64 (base64Encode buf).data, c ≠ [] ∧ c.length ≤ 64) ∧
    (∀ c ∈ (chunk64 (base64Encode buf).data).dropLast, c.length = 64) ∧
    (∀ (w : World) (host cp : String) (fx : Fx) (c : CertInfo),
      w.netCert fx.fetches = some c → strTruthy c.pem = false →
      c.raw = some buf →
      ∃ p, bufferToPem buf = some p ∧
        (fetchAndMaybePersist w host (some cp) fx).2.effs =
          fx.effs ++ [Eff.netFetch host, Eff.fileWrite cp p]) ∧
    (∀ (w : World) (host cp : String) (fx : Fx) (c : CertInfo),
      w.netCert fx.fetches = some c → strTruthy c.pem = true →
      (fetchAndMaybePersist w host (some cp) fx).2.effs =
        fx.effs ++ [Eff.netFetch host, Eff.fileWrite cp (orEmpty c.pem)]) := by
  obtain ⟨b, bs, rfl⟩ : ∃ b bs, buf = b :: bs := by
    cases buf with
    | nil => exact absurd rfl h
    | cons b bs => exact ⟨b, bs, rfl⟩
  refine ⟨?_, chunkAux_flatten _ _ le_rfl, fun c hc => chunkAux_mem _ _ c hc,
    fun c hc => chunkAux_dropLast _ _ le_rfl c hc, ?_, ?_⟩
  · unfold bufferToPem
    cases hck : chunk64 (base64Encode (b :: bs)).data with
    | nil => exact absurd hck (chunk64_ne_nil _ (base64_data_ne_nil b bs))
    | cons d ds => rfl
  · intro w host cp fx c hc hp hcr
    rcases bufferToPem_ne_none b bs with ⟨p, hb⟩
    refine ⟨p, hb, ?_⟩
    simp [fetchAndMaybePersist, fetchCert, fetchCertResult, hc, hp, hcr, hb,
      logEff]
  · intro w host cp fx c hc hp
    cases hcp : c.pem with
    | none => rw [hcp] at hp; simp [strTruthy] at hp
    | some t =>
      have hpt : strTruthy (some t) = true := by rw [← hcp]; exact hp
      cases hcr : c.raw with
      | none =>
        simp [fetchAndMaybePersist, fetchCert, fetchCertResult, hc, hpt, hcp,
          hcr, logEff, orEmpty]
      | some r =>
        simp [fetchAndMaybePersist, fetchCert, fetchCertResult, hc, hpt, hcp,
          hcr, logEff, orEmpty]

/-- Witness for C10 (amended) on the buffer `[1, 2, 3]`: the conversion
equation, and the raw-bytes persist clause at a concrete fetch. -/
theorem c10_pem_format_amended_witness :
    ([1, 2, 3] : List Nat) ≠ [] ∧
    bufferToPem [1, 2, 3] = some (beginMarker ++ "\n" ++
      String.mk (joinNL (chunk64 (base64Encode [1, 2, 3]).data)) ++ "\n" ++
      endMarker ++ "\n") ∧
    ∃ p, bufferToPem [1, 2, 3] = some p ∧
      (fetchAndMaybePersist wRawOnly "h:1" (some "/c.pem") fx0).2.effs =
        fx0.effs ++ [Eff.netFetch "h:1", Eff.fileWrite "/c.pem" p] :=
  ⟨by decide, (c10_pem_format_amended [1, 2, 3] (by decide)).1,
   (c10_pem_format_amended [1, 2, 3] (by decide)).2.2.2.2.1 wRawOnly "h:1"
     "/c.pem" fx0 ⟨none, some [1, 2, 3], none, none⟩ rfl rfl rfl⟩

/-- C8 (counterexample): a live fetch whose response resolves with no
certificate data is not turned into an error — `fetchCert` returns trust
material with both the PEM and the raw field absent. -/
theorem c8_fetch_unavailable_counterexample :
    (fetchCert wLateCert "h:1" fx0).1 =
      Except.ok (⟨none, none, none, none⟩ : TrustMaterial) := rfl

/-- C8 (amended): `fetchCert` fails when the remote endpoint is
unreachable (the driver rejects), and whenever the driver supplies a
truthy PEM or nonempty raw bytes the returned material has a PEM; but when
the driver resolves with neither PEM nor raw data, `fetchCert` returns
material with both fields absent instead of failing. -/
theorem c8_fetch_unavailable_amended (w : World) (host : String) (fx : Fx) :
    (w.netCert fx.fetches = none →
      (fetchCert w host fx).1 = Except.error ()) ∧
    (∀ c, w.netCert fx.fetches = some c → strTruthy c.pem = true →
      ∃ m, (fetchCert w host fx).1 = Except.ok m ∧ m.pem ≠ none) ∧
    (∀ c b bs, w.netCert fx.fetches = some c → strTruthy c.pem = false →
      c.raw = some (b :: bs) →
      ∃ m, (fetchCert w host fx).1 = Except.ok m ∧ m.pem ≠ none) ∧
    (∀ m, (fetchCert w host fx).1 = Except.ok m → m.pem = none →
      m.raw = none →
      ∃ c, w.netCert fx.fetches = some c ∧ strTruthy c.pem = false ∧
        c.raw = none) := by
  refine ⟨?_, ?_, ?_, ?_⟩
  · intro h
    simp [fetchCert, fetchCertResult, h]
  · intro c hc hp
    cases hcr : c.raw with
    | some r =>
      exact ⟨⟨c.pem, some r, c.subject, c.san⟩,
        by simp [fetchCert, fetchCertResult, hc, hp, hcr], strTruthy_ne_none c.pem hp⟩
    | none =>
      exact ⟨⟨c.pem, some (strBytes (orEmpty c.pem)), c.subject, c.san⟩,
        by simp [fetchCert, fetchCertResult, hc, hp, hcr], strTruthy_ne_none c.pem hp⟩
  · intro c b bs hc hp hcr
    rcases bufferToPem_ne_none b bs with ⟨p, hb⟩
    exact ⟨⟨some p, some (b :: bs), c.subject, c.san⟩,
      by simp [fetchCert, fetchCertResult, hc, hp, hcr, hb], by simp⟩
  · intro m hm hpem hraw
    cases hn : w.netCert fx.fetches with
    | none => simp [fetchCert, fetchCertResult, hn] at hm
    | some c =>
      cases hpt : strTruthy c.pem with
      | true =>
        cases hcr : c.raw with
        | some r =>
          simp [fetchCert, fetchCertResult, hn, hpt, hcr] at hm
          rw [← hm] at hpem
          exact absurd hpem (strTruthy_ne_none c.pem hpt)
        | none =>
          simp [fetchCert, fetchCertResult, hn, hpt, hcr] at hm
          rw [← hm] at hpem
          exact absurd hpem (strTruthy_ne_none c.pem hpt)
      | false =>
        cases hcr : c.raw with
        | some r =>
          cases r with
          | nil =>
            have hb : bufferToPem ([] : List Nat) = none := rfl
            simp [fetchCert, fetchCertResult, hn, hpt, hcr, hb] at hm
          | cons b bs =>
            rcases bufferToPem_ne_none b bs with ⟨p, hb⟩
            simp [fetchCert, fetchCertResult, hn, hpt, hcr, hb] at hm
            rw [← hm] at hpem
            simp at hpem
        | none => exact ⟨c, rfl, hpt, hcr⟩

/-- Witness for C8 (amended): an unreachable endpoint makes `fetchCert`
fail. -/
theorem c8_fetch_unavailable_amended_witness :
    wUnreachable.netCert fx0.fetches = none ∧
    (fetchCert wUnreachable "h:1" fx0).1 = Except.error () :=
  ⟨rfl, (c8_fetch_unavailable_amended wUnreachable "h:1" fx0).1 rfl⟩

theorem logEff_fetches (fx : Fx) (ev : Eff) :
    (logEff fx ev).fetches = fx.fetches := rfl

theorem fetchAndMaybePersist_fetches (w : World) (host : String)
    (cp : Option String) (fx : Fx) :
    (fetchAndMaybePersist w host cp fx).2.fetches = fx.fetches + 1 := by
  unfold fetchAndMaybePersist fetchCert
  cases fetchCertResult w fx.fetches with
  | error u => rfl
  | ok cert =>
    cases cp with
    | none => rfl
    | some p =>
      cases hcp : cert.pem with
      | none => simp [hcp]
      | some t => simp [hcp, logEff]

/-- C6: with the insecure flag set and complete credentials, the
descriptor builder performs no I/O at all and produces a descriptor with
peer verification disabled and no trust anchor; connecting with that
descriptor performs exactly one pool initialisation and no certificate
read, write or fetch. -/
theorem c6_insecure_no_cert_io (w : World) (e : EnvVars) (cwd : String)
    (fx : Fx) (aid : Nat)
    (hh : strTruthy (readDbEnv e cwd).host = true)
    (hu : strTruthy (readDbEnv e cwd).user = true)
    (hp : strTruthy (readDbEnv e cwd).pass = true)
    (hins : (readDbEnv e cwd).insecure = true) :
    ∃ srv : ServerDescriptor,
      getDatabaseServer w e cwd none fx = (some srv, some srv, fx) ∧
      srv.ignoreUnauthorized = true ∧ srv.ca = none ∧
      ∀ r fx', dbConnect w (some srv) aid fx = (r, fx') →
        fx'.fetches = fx.fetches ∧ fx'.effs = fx.effs ++ [Eff.poolInit] := by
  refine ⟨insecureServer (readDbEnv e cwd), ?_, rfl, rfl, ?_⟩
  · simp [getDatabaseServer, hh, hu, hp, hins]
  · intro r fx' hcon
    cases hpool : w.poolOk aid <;>
      simp [dbConnect, needsLastResort, insecureServer, logEff, hpool] at hcon <;>
      rw [← hcon.2]
    · exact ⟨rfl, rfl⟩
    · exact ⟨rfl, rfl⟩

def envInsecureFull : EnvVars :=
  { dbHost := some "h:1", dbId := some "u", dbPassword := some "p",
    dbTlsInsecure := some "true", dbCertPath := some "/c.pem",
    dbCaPem := some "no marker here" }

def wWithFile : World :=
  ⟨[("/c.pem", "filepem")], fun _ => some goodCert, fun _ => true⟩

/-- Witness for C6: even with a cached-certificate path configured and
present on disk, insecure mode touches nothing. -/
theorem c6_insecure_no_cert_io_witness :
    strTruthy (readDbEnv envInsecureFull "/").host = true ∧
    (readDbEnv envInsecureFull "/").insecure = true ∧
    ∃ srv : ServerDescriptor,
      getDatabaseServer wWithFile envInsecureFull "/" none fx0 =
        (some srv, some srv, fx0) ∧
      srv.ignoreUnauthorized = true ∧ srv.ca = none := by
  refine ⟨by decide, by decide, ?_⟩
  rcases c6_insecure_no_cert_io wWithFile envInsecureFull "/" fx0 0
      (by decide) (by decide) (by decide) (by decide) with
    ⟨srv, h1, h2, h3, _⟩
  exact ⟨srv, h1, h2, h3⟩

/-- C7: trust material is resolved with inline-PEM-first precedence: an
inline certificate containing the `BEGIN CERTIFICATE` marker is wrapped
with no I/O; otherwise a configured and existing cache file is read, with
no network fetch; otherwise a live fetch is performed. -/
theorem c7_trust_precedence (w : World) (host : String)
    (certPath : Option String) (caPem : String) (fx : Fx) :
    ((caPem != "" && strHasSub caPem "BEGIN CERTIFICATE") = true →
      resolveTrust w host certPath caPem fx =
        (Except.ok ⟨some caPem, some (strBytes caPem), none, none⟩, fx)) ∧
    (∀ cp, (caPem != "" && strHasSub caPem "BEGIN CERTIFICATE") = false →
      certPath = some cp → existsSyncW w cp = true →
      ∃ m fx', resolveTrust w host certPath caPem fx = (Except.ok m, fx') ∧
        m.pem = some (readFileW w cp) ∧ fx'.fetches = fx.fetches) ∧
    ((caPem != "" && strHasSub caPem "BEGIN CERTIFICATE") = false →
      (certPath = none ∨ ∃ cp, certPath = some cp ∧ existsSyncW w cp = false) →
      (resolveTrust w host certPath caPem fx).2.fetches = fx.fetches + 1) := by
  refine ⟨?_, ?_, ?_⟩
  · intro hinline
    rcases Bool.and_eq_true_iff.1 hinline with ⟨hne, hsub⟩
    simp [resolveTrust, pemFromEnvOrFile, hne, hsub, ensureCertificate,
      strTruthy, orEmpty]
  · intro cp hinline hcp hex
    subst hcp
    by_cases hemp : readFileW w cp = ""
    · refine ⟨⟨some (readFileW w cp), some (strBytes (readFileW w cp)),
        none, none⟩,
        logEff (logEff (logEff (logEff fx (Eff.fileExistsCheck cp))
          (Eff.fileRead cp)) (Eff.fileExistsCheck cp)) (Eff.fileRead cp),
        ?_, rfl, rfl⟩
      simp [resolveTrust, pemFromEnvOrFile, hinline, hex, ensureCertificate,
        strTruthy, hemp, orEmpty]
    · refine ⟨⟨some (readFileW w cp), some (strBytes (readFileW w cp)),
        none, none⟩,
        logEff (logEff fx (Eff.fileExistsCheck cp)) (Eff.fileRead cp),
        ?_, rfl, rfl⟩
      simp [resolveTrust, pemFromEnvOrFile, hinline, hex, ensureCertificate,
        strTruthy, hemp, orEmpty]
  · intro hinline hmiss
    rcases hmiss with hnone | ⟨cp, hcp, hex⟩
    · subst hnone
      simp [resolveTrust, pemFromEnvOrFile, hinline, ensureCertificate,
        strTruthy]
      exact fetchAndMaybePersist_fetches w host none fx
    · subst hcp
      simp [resolveTrust, pemFromEnvOrFile, hinline, hex, ensureCertificate,
        strTruthy]
      exact fetchAndMaybePersist_fetches w host (some cp)
        (logEff (logEff fx (Eff.fileExistsCheck cp)) (Eff.fileExistsCheck cp))

/-- Witness for C7: the three precedence branches at concrete inputs. -/
theorem c7_trust_precedence_witness :
    (("-----BEGIN CERTIFICATE-----x" != "" &&
       strHasSub "-----BEGIN CERTIFICATE-----x" "BEGIN CERTIFICATE") = true ∧
     resolveTrust wWithFile "h:1" (some "/c.pem")
        "-----BEGIN CERTIFICATE-----x" fx0 =
       (Except.ok ⟨some "-----BEGIN CERTIFICATE-----x",
          some (strBytes "-----BEGIN CERTIFICATE-----x"), none, none⟩, fx0)) ∧
    (existsSyncW wWithFile "/c.pem" = true ∧
     ∃ m fx', resolveTrust wWithFile "h:1" (some "/c.pem") "" fx0 =
        (Except.ok m, fx') ∧
       m.pem = some (readFileW wWithFile "/c.pem") ∧
       fx'.fetches = fx0.fetches) ∧
    (resolveTrust wGood "h:1" none "" fx0).2.fetches = fx0.fetches + 1 := by
  refine ⟨⟨by decide, ?_⟩, ⟨by decide, ?_⟩, ?_⟩
  · exact (c7_trust_precedence wWithFile "h:1" (some "/c.pem")
      "-----BEGIN CERTIFICATE-----x" fx0).1 (by decide)
  · exact (c7_trust_precedence wWithFile "h:1" (some "/c.pem") "" fx0).2.1
      "/c.pem" (by decide) rfl (by decide)
  · exact (c7_trust_precedence wGood "h:1" none "" fx0).2.2 (by decide)
      (Or.inl rfl)

/-- C2 (counterexample): secure mode with nothing cached on disk.  After a
successful acquisition (which performed the only certificate fetch),
`invalidateDb()` and a second `getDb()` succeed with a fresh connect
attempt but perform no new fetch and reuse the very descriptor cached
before invalidation — no fresh descriptor build happens. -/
theorem c2_invalidate_counterexample :
    (runFrom wGood envSecure "/" initState
      [Ev.call 0, Ev.resume 0, Ev.resume 0]).fx.fetches = 1 ∧
    (runFrom wGood envSecure "/" initState
      [Ev.call 0, Ev.resume 0, Ev.resume 0]).cachedServer =
      (runFrom wGood envSecure "/" initState
        [Ev.call 0, Ev.resume 0, Ev.resume 0, Ev.invalidate, Ev.call 1,
         Ev.resume 1, Ev.resume 1]).cachedServer ∧
    (runFrom wGood envSecure "/" initState
      [Ev.call 0, Ev.resume 0, Ev.resume 0, Ev.invalidate, Ev.call 1,
       Ev.resume 1, Ev.resume 1]).fx.fetches = 1 ∧
    lookupN 1 (runFrom wGood envSecure "/" initState
      [Ev.call 0, Ev.resume 0, Ev.resume 0, Ev.invalidate, Ev.call 1,
       Ev.resume 1, Ev.resume 1]).results = some (CallRes.done (some 1)) := by
  exact ⟨by decide, by decide, by decide, by decide⟩

/-- C2 (amended): `invalidateDb()` clears the handle and the in-flight
reference, so the next `getDb()` starts a fresh acquisition attempt — but
the descriptor cache is not cleared: when a descriptor was already built,
`getDatabaseServer` returns it unchanged with no rebuild and no I/O. -/
theorem c2_invalidate_amended (w : World) (e : EnvVars) (cwd : String)
    (s : SysState) (c : Nat) (d : ServerDescriptor)
    (hd : s.cachedServer = some d)
    (hfr : lookupN s.nextAttempt s.tasks = none) :
    (step w e cwd s Ev.invalidate).cachedDb = none ∧
    (step w e cwd s Ev.invalidate).connecting = none ∧
    (step w e cwd s Ev.invalidate).cachedServer = some d ∧
    (step w e cwd (step w e cwd s Ev.invalidate) (Ev.call c)).connecting =
      some s.nextAttempt ∧
    (step w e cwd (step w e cwd s Ev.invalidate) (Ev.call c)).nextAttempt =
      s.nextAttempt + 1 ∧
    lookupN s.nextAttempt
      (step w e cwd (step w e cwd s Ev.invalidate) (Ev.call c)).tasks =
      some APhase.atServer ∧
    ∀ fx, getDatabaseServer w e cwd
        (step w e cwd (step w e cwd s Ev.invalidate) (Ev.call c)).cachedServer
        fx = (some d, some d, fx) := by
  have hinv : step w e cwd s Ev.invalidate =
      { s with cachedDb := none, connecting := none } := rfl
  have hcall : step w e cwd { s with cachedDb := none, connecting := none }
      (Ev.call c) =
      { s with cachedDb := none, connecting := some s.nextAttempt,
               tasks := s.tasks ++ [(s.nextAttempt, APhase.atServer)],
               results := s.results ++ [(c, CallRes.waiting s.nextAttempt)],
               nextAttempt := s.nextAttempt + 1 } := by
    simp [step]
  rw [hinv, hcall]
  refine ⟨rfl, rfl, hd, rfl, rfl, ?_, ?_⟩
  · show lookupN s.nextAttempt
      (s.tasks ++ [(s.nextAttempt, APhase.atServer)]) = some APhase.atServer
    rw [lookupN_append, hfr]
    simp [lookupN]
  · intro fx
    show getDatabaseServer w e cwd s.cachedServer fx = (some d, some d, fx)
    rw [hd]
    rfl

/-- Witness for C2 (amended) after a concrete successful acquisition. -/
theorem c2_invalidate_amended_witness :
    (runFrom wGood envSecure "/" initState
      [Ev.call 0, Ev.resume 0, Ev.resume 0]).cachedServer =
      some ⟨"h:1", "u", "p", some (CaVal.pem "X"), false, none⟩ ∧
    (step wGood envSecure "/"
      (runFrom wGood envSecure "/" initState
        [Ev.call 0, Ev.resume 0, Ev.resume 0]) Ev.invalidate).cachedDb =
      none ∧
    ∀ fx, getDatabaseServer wGood envSecure "/"
      (step wGood envSecure "/"
        (step wGood envSecure "/"
          (runFrom wGood envSecure "/" initState
            [Ev.call 0, Ev.resume 0, Ev.resume 0]) Ev.invalidate)
        (Ev.call 1)).cachedServer fx =
      (some ⟨"h:1", "u", "p", some (CaVal.pem "X"), false, none⟩,
       some ⟨"h:1", "u", "p", some (CaVal.pem "X"), false, none⟩, fx) := by
  rcases c2_invalidate_amended wGood envSecure "/"
      (runFrom wGood envSecure "/" initState
        [Ev.call 0, Ev.resume 0, Ev.resume 0]) 1
      ⟨"h:1", "u", "p", some (CaVal.pem "X"), false, none⟩ (by decide)
      (by decide) with ⟨h1, _, _, _, _, _, h7⟩
  exact ⟨by decide, h1, h7⟩

/-- C4 (counterexample): an acquisition attempt that was in flight when
`invalidateDb()` ran later fails and clobbers the fresh state: caller 11
succeeded with handle 1, no invalidation happens afterwards, yet the
later caller 12 does not receive handle 1 — the cache is cold again and a
brand-new connect attempt (id 2) is started. -/
theorem c4_memoization_counterexample :
    lookupN 11 (runFrom wPoolFlaky envInsecure "/" initState
      [Ev.call 10, Ev.invalidate, Ev.call 11, Ev.resume 1, Ev.resume 1,
       Ev.resume 0, Ev.resume 0, Ev.call 12]).results =
      some (CallRes.done (some 1)) ∧
    lookupN 12 (runFrom wPoolFlaky envInsecure "/" initState
      [Ev.call 10, Ev.invalidate, Ev.call 11, Ev.resume 1, Ev.resume 1,
       Ev.resume 0, Ev.resume 0, Ev.call 12]).results =
      some (CallRes.waiting 2) ∧
    (runFrom wPoolFlaky envInsecure "/" initState
      [Ev.call 10, Ev.invalidate, Ev.call 11, Ev.resume 1, Ev.resume 1,
       Ev.resume 0, Ev.resume 0, Ev.call 12]).nextAttempt = 3 ∧
    (runFrom wPoolFlaky envInsecure "/" initState
      [Ev.call 10, Ev.invalidate, Ev.call 11, Ev.resume 1, Ev.resume 1,
       Ev.resume 0, Ev.resume 0]).cachedDb = none := by
  exact ⟨by decide, by decide, by decide, by decide⟩

/-- C4 (amended): after a successful acquisition, provided no earlier
acquisition attempt is still unsettled, every later schedule without an
`invalidateDb()` returns the cached handle to each caller, performs no
I/O, and starts no new connect attempt. -/
theorem c4_memoization_amended (w : World) (e : EnvVars) (cwd : String)
    (s : SysState) (h : Nat) (evs : List Ev)
    (hdb : s.cachedDb = some h) (htasks : s.tasks = [])
    (hnoinv : Ev.invalidate ∉ evs) :
    (runFrom w e cwd s evs).cachedDb = some h ∧
    (runFrom w e cwd s evs).fx = s.fx ∧
    (runFrom w e cwd s evs).nextAttempt = s.nextAttempt ∧
    (runFrom w e cwd s evs).tasks = [] ∧
    (runFrom w e cwd s evs).results = s.results ++ evs.filterMap
      fun ev => match ev with
        | Ev.call c => some (c, CallRes.done (some h))
        | _ => none := by
  induction evs generalizing s with
  | nil => exact ⟨hdb, rfl, rfl, htasks, by simp [runFrom]⟩
  | cons ev evs ih =>
    have hnoinv' : Ev.invalidate ∉ evs :=
      fun hmem => hnoinv (List.mem_cons_of_mem _ hmem)
    cases ev with
    | invalidate => exact absurd (List.mem_cons_self _ _) hnoinv
    | call c =>
      rw [runFrom_cons, show step w e cwd s (Ev.call c) =
        { s with results := s.results ++ [(c, CallRes.done (some h))] } by
          simp [step, hdb]]
      rcases ih { s with results := s.results ++ [(c, CallRes.done (some h))] }
          hdb htasks hnoinv' with ⟨h1, h2, h3, h4, h5⟩
      refine ⟨h1, h2, h3, h4, ?_⟩
      rw [h5]
      simp
    | resume a =>
      rw [runFrom_cons, resume_noop w e cwd s a (by rw [htasks]; rfl)]
      rcases ih s hdb htasks hnoinv' with ⟨h1, h2, h3, h4, h5⟩
      refine ⟨h1, h2, h3, h4, ?_⟩
      rw [h5]
      simp

/-- Witness for C4 (amended) after a concrete successful acquisition. -/
theorem c4_memoization_amended_witness :
    (runFrom wGood envInsecure "/" initState
      [Ev.call 0, Ev.resume 0, Ev.resume 0]).cachedDb = some 0 ∧
    (runFrom wGood envInsecure "/" initState
      [Ev.call 0, Ev.resume 0, Ev.resume 0]).tasks = [] ∧
    (runFrom wGood envInsecure "/"
      (runFrom wGood envInsecure "/" initState
        [Ev.call 0, Ev.resume 0, Ev.resume 0])
      [Ev.call 5, Ev.resume 0, Ev.call 6]).cachedDb = some 0 ∧
    (runFrom wGood envInsecure "/"
      (runFrom wGood envInsecure "/" initState
        [Ev.call 0, Ev.resume 0, Ev.resume 0])
      [Ev.call 5, Ev.resume 0, Ev.call 6]).fx =
      (runFrom wGood envInsecure "/" initState
        [Ev.call 0, Ev.resume 0, Ev.resume 0]).fx := by
  rcases c4_memoization_amended wGood envInsecure "/"
      (runFrom wGood envInsecure "/" initState
        [Ev.call 0, Ev.resume 0, Ev.resume 0]) 0
      [Ev.call 5, Ev.resume 0, Ev.call 6] (by decide) (by decide)
      (by decide) with ⟨h1, h2, _, _, _⟩
  exact ⟨by decide, by decide, h1, h2⟩

/-! ### The refined machine for descriptor-slot claims

The coarse machine above folds all of `getDatabaseServer` into one resume,
which is exact for the `cachedDb`/`connecting` slots (never touched inside
it) but hides where `cachedServer` is written.  In the source, the
`cachedServer` check happens once, synchronously, when `getDb`'s arrow
function calls `getDatabaseServer()`; the secure branch can then suspend
at the certificate fetch inside `ensureCertificate`, and on resumption the
continuation executes `cachedServer = server` (line 166) with no re-check.
The refined machine models exactly this: a `call` event runs the whole
synchronous block plus the microtask chain it triggers (awaits of
already-resolved promises only defer to the microtask queue, which drains
before any other event), so an attempt suspends only at real I/O awaits —
the trust fetch, the last-resort fetch, pool initialisation.  Descriptor
objects live in an append-only store and `cachedServer` is a reference
into it, so in-place mutation by `Db.connect` and aliasing between an
attempt's local `server` variable and the module slot are represented. -/

/-- Real suspension points of an attempt in the refined machine.
`inTrust` is the certificate fetch inside `getDatabaseServer`'s secure
branch, carrying the `certPath` argument used by the advisory persist;
`atFetchCert` carries the reference to the attempt's own descriptor
object. -/
inductive APhaseR
  | inTrust (certPathArg : Option String)
  | atFetchCert (ref : Nat)
  | atPoolInit
deriving DecidableEq, Repr

structure SysStateR where
  store : List ServerDescriptor
  cachedServer : Option Nat
  cachedDb : Option Nat
  connecting : Option Nat
  tasks : List (Nat × APhaseR)
  results : List (Nat × CallRes)
  nextAttempt : Nat
  fx : Fx
deriving Repr

def initStateR : SysStateR := ⟨[], none, none, none, [], [], 0, fx0⟩

/-- The descriptor the module slot currently points at. -/
def cachedDescriptor (s : SysStateR) : Option ServerDescriptor :=
  match s.cachedServer with
  | none => none
  | some r => s.store[r]?

/-- Where `Db.connect`'s synchronous prefix suspends (source lines 181 and
191): at the last-resort fetch when secure with no CA, else at pool
initialisation. -/
def connectPhase (srv : ServerDescriptor) (ref : Nat) : APhaseR :=
  if needsLastResort srv then .atFetchCert ref else .atPoolInit

/-- One step of the refined machine. -/
def stepR (w : World) (e : EnvVars) (cwd : String) (s : SysStateR) :
    Ev → SysStateR
  | .invalidate => { s with cachedDb := none, connecting := none }
  | .call c =>
    match s.cachedDb with
    | some h => { s with results := s.results ++ [(c, .done (some h))] }
    | none =>
      match s.connecting with
      | some a => { s with results := s.results ++ [(c, .waiting a)] }
      | none =>
        let i := s.nextAttempt
        match s.cachedServer with
        | some ref =>
          -- entry-time cache hit: `getDatabaseServer` resolves with the
          -- cached object and `Db.connect`'s prefix runs
          match s.store[ref]? with
          | none => s
          | some srv =>
            { s with connecting := some i,
                     tasks := s.tasks ++ [(i, connectPhase srv ref)],
                     results := s.results ++ [(c, .waiting i)],
                     nextAttempt := i + 1 }
        | none =>
          let cfg := readDbEnv e cwd
          if !(strTruthy cfg.host && strTruthy cfg.user && strTruthy cfg.pass)
          then
            -- `getDatabaseServer` returns null with no real suspension: the
            -- attempt settles within this block, the finally having cleared
            -- `connecting`; `cachedDb` is untouched.
            { s with results := s.results ++ [(c, .done none)],
                     nextAttempt := i + 1 }
          else if cfg.insecure then
            let srv := insecureServer cfg
            { s with store := s.store ++ [srv],
                     cachedServer := some s.store.length,
                     connecting := some i,
                     tasks := s.tasks ++ [(i, connectPhase srv s.store.length)],
                     results := s.results ++ [(c, .waiting i)],
                     nextAttempt := i + 1 }
          else
            match pemFromEnvOrFile w cfg.certPath cfg.caPem s.fx with
            | (inlinePem, fx1) =>
              if strTruthy inlinePem then
                let cert : TrustMaterial :=
                  ⟨some (orEmpty inlinePem),
                   some (strBytes (orEmpty inlinePem)), none, none⟩
                let srv := secureServer cfg cert
                { s with store := s.store ++ [srv],
                         cachedServer := some s.store.length,
                         connecting := some i, fx := fx1,
                         tasks := s.tasks ++
                           [(i, connectPhase srv s.store.length)],
                         results := s.results ++ [(c, .waiting i)],
                         nextAttempt := i + 1 }
              else
                match cfg.certPath with
                | some cp =>
                  let fx2 := logEff fx1 (.fileExistsCheck cp)
                  if existsSyncW w cp then
                    let pem := readFileW w cp
                    let cert : TrustMaterial :=
                      ⟨some pem, some (strBytes pem), none, none⟩
                    let srv := secureServer cfg cert
                    { s with store := s.store ++ [srv],
                             cachedServer := some s.store.length,
                             connecting := some i,
                             fx := logEff fx2 (.fileRead cp),
                             tasks := s.tasks ++
                               [(i, connectPhase srv s.store.length)],
                             results := s.results ++ [(c, .waiting i)],
                             nextAttempt := i + 1 }
                  else
                    { s with connecting := some i, fx := fx2,
                             tasks := s.tasks ++
                               [(i, APhaseR.inTrust (some cp))],
                             results := s.results ++ [(c, .waiting i)],
                             nextAttempt := i + 1 }
                | none =>
                  { s with connecting := some i, fx := fx1,
                           tasks := s.tasks ++ [(i, APhaseR.inTrust none)],
                           results := s.results ++ [(c, .waiting i)],
                           nextAttempt := i + 1 }
  | .resume a =>
    match lookupN a s.tasks with
    | none => s
    | some (.inTrust certPathArg) =>
      let cfg := readDbEnv e cwd
      match fetchAndMaybePersist w (orEmpty cfg.host) certPathArg s.fx with
      | (.error _, fx') =>
        -- the builder's catch returns null; the arrow function returns null
        -- and its finally clears `connecting`; `cachedDb` is untouched
        { s with fx := fx', connecting := none,
                 tasks := removeTask a s.tasks,
                 results := settleResults a none s.results }
      | (.ok cert, fx') =>
        -- line 166: `cachedServer = server`, unconditionally — the entry
        -- check is long past, so this overwrites whatever is cached now
        let srv := secureServer cfg cert
        { s with store := s.store ++ [srv],
                 cachedServer := some s.store.length, fx := fx',
                 tasks := setTask a (connectPhase srv s.store.length) s.tasks }
    | some (.atFetchCert ref) =>
      match s.store[ref]? with
      | none => s
      | some srv =>
        match fetchCert w srv.host s.fx with
        | (.error _, fx') =>
          { s with fx := fx', cachedDb := none, connecting := none,
                   tasks := removeTask a s.tasks,
                   results := settleResults a none s.results }
        | (.ok cert, fx') =>
          -- in-place mutation of the attempt's own descriptor object,
          -- which may or may not still be the cached one
          { s with fx := fx',
                   store := s.store.set ref (applyLastResort srv cert),
                   tasks := setTask a APhaseR.atPoolInit s.tasks }
    | some .atPoolInit =>
      let fx' := logEff s.fx .poolInit
      if w.poolOk a then
        { s with fx := fx', cachedDb := some a, connecting := none,
                 tasks := removeTask a s.tasks,
                 results := settleResults a (some a) s.results }
      else
        { s with fx := fx', cachedDb := none, connecting := none,
                 tasks := removeTask a s.tasks,
                 results := settleResults a none s.results }

def runFromR (w : World) (e : EnvVars) (cwd : String) (s : SysStateR)
    (evs : List Ev) : SysStateR :=
  evs.foldl (stepR w e cwd) s

theorem runFromR_cons (w : World) (e : EnvVars) (cwd : String) (s : SysStateR)
    (ev : Ev) (evs : List Ev) :
    runFromR w e cwd s (ev :: evs) =
      runFromR w e cwd (stepR w e cwd s ev) evs := rfl

theorem lookupN_append_one {β : Type} (a i : Nat) (v : β)
    (ts : List (Nat × β)) (q : β)
    (h : lookupN a (ts ++ [(i, v)]) = some q) :
    lookupN a ts = some q ∨ q = v := by
  rw [lookupN_append] at h
  cases hla : lookupN a ts with
  | some x =>
    rw [hla] at h
    simp at h
    exact Or.inl (congrArg some h)
  | none =>
    rw [hla] at h
    by_cases hia : i = a
    · simp [lookupN, hia] at h
      exact Or.inr h.symm
    · simp [lookupN, hia] at h

/-- No attempt is suspended inside trust resolution or inside the
last-resort certificate fetch. -/
def noPendingTrust (s : SysStateR) : Prop :=
  ∀ a ph, lookupN a s.tasks = some ph →
    (∀ cp, ph ≠ APhaseR.inTrust cp) ∧ ∀ r, ph ≠ APhaseR.atFetchCert r

/-- One refined step preserves the store and the slot when the cached
descriptor needs no last resort and nothing is suspended in a fetch. -/
theorem stepR_frozen (w : World) (e : EnvVars) (cwd : String)
    (s : SysStateR) (ref : Nat) (d : ServerDescriptor) (ev : Ev)
    (hslot : s.cachedServer = some ref)
    (hget : s.store[ref]? = some d)
    (hnl : needsLastResort d = false)
    (hnp : noPendingTrust s) :
    (stepR w e cwd s ev).store = s.store ∧
    (stepR w e cwd s ev).cachedServer = some ref ∧
    noPendingTrust (stepR w e cwd s ev) := by
  cases ev with
  | invalidate => exact ⟨rfl, hslot, hnp⟩
  | call c =>
    cases hdb : s.cachedDb with
    | some v =>
      rw [show stepR w e cwd s (Ev.call c) =
        { s with results := s.results ++ [(c, CallRes.done (some v))] } by
          simp [stepR, hdb]]
      exact ⟨rfl, hslot, hnp⟩
    | none =>
      cases hcon : s.connecting with
      | some a2 =>
        rw [show stepR w e cwd s (Ev.call c) =
          { s with results := s.results ++ [(c, CallRes.waiting a2)] } by
            simp [stepR, hdb, hcon]]
        exact ⟨rfl, hslot, hnp⟩
      | none =>
        rw [show stepR w e cwd s (Ev.call c) =
          { s with connecting := some s.nextAttempt,
                   tasks := s.tasks ++ [(s.nextAttempt, connectPhase d ref)],
                   results := s.results ++
                     [(c, CallRes.waiting s.nextAttempt)],
                   nextAttempt := s.nextAttempt + 1 } by
            simp [stepR, hdb, hcon, hslot, hget]]
        refine ⟨rfl, hslot, ?_⟩
        intro a ph hph
        rcases lookupN_append_one a s.nextAttempt (connectPhase d ref)
            s.tasks ph hph with hin | rfl
        · exact hnp a ph hin
        · rw [show connectPhase d ref = APhaseR.atPoolInit by
            simp [connectPhase, hnl]]
          exact ⟨fun cp => by simp, fun r => by simp⟩
  | resume a =>
    cases ht : lookupN a s.tasks with
    | none =>
      rw [show stepR w e cwd s (Ev.resume a) = s by simp [stepR, ht]]
      exact ⟨rfl, hslot, hnp⟩
    | some ph =>
      cases ph with
      | inTrust cp => exact absurd rfl ((hnp a _ ht).1 cp)
      | atFetchCert r => exact absurd rfl ((hnp a _ ht).2 r)
      | atPoolInit =>
        cases hp : w.poolOk a with
        | true =>
          rw [show stepR w e cwd s (Ev.resume a) =
            { s with fx := logEff s.fx Eff.poolInit, cachedDb := some a,
                     connecting := none, tasks := removeTask a s.tasks,
                     results := settleResults a (some a) s.results } by
              simp [stepR, ht, hp]]
          refine ⟨rfl, hslot, ?_⟩
          intro b ph hph
          rw [lookupN_removeTask] at hph
          by_cases hba : b = a
          · rw [if_pos hba] at hph
            exact absurd hph (by simp)
          · rw [if_neg hba] at hph
            exact hnp b ph hph
        | false =>
          rw [show stepR w e cwd s (Ev.resume a) =
            { s with fx := logEff s.fx Eff.poolInit, cachedDb := none,
                     connecting := none, tasks := removeTask a s.tasks,
                     results := settleResults a none s.results } by
              simp [stepR, ht, hp]]
          refine ⟨rfl, hslot, ?_⟩
          intro b ph hph
          rw [lookupN_removeTask] at hph
          by_cases hba : b = a
          · rw [if_pos hba] at hph
            exact absurd hph (by simp)
          · rw [if_neg hba] at hph
            exact hnp b ph hph

theorem runFromR_frozen (w : World) (e : EnvVars) (cwd : String) (ref : Nat)
    (d : ServerDescriptor) (evs : List Ev) :
    ∀ s : SysStateR, s.cachedServer = some ref → s.store[ref]? = some d →
    needsLastResort d = false → noPendingTrust s →
    (runFromR w e cwd s evs).store = s.store ∧
    (runFromR w e cwd s evs).cachedServer = some ref := by
  induction evs with
  | nil => exact fun s h1 _ _ _ => ⟨rfl, h1⟩
  | cons ev evs ih =>
    intro s h1 h2 h3 h4
    obtain ⟨hst, hsl, hnp2⟩ := stepR_frozen w e cwd s ref d ev h1 h2 h3 h4
    obtain ⟨a1, a2⟩ := ih (stepR w e cwd s ev) hsl (by rw [hst]; exact h2)
      h3 hnp2
    rw [runFromR_cons]
    exact ⟨a1.trans hst, a2⟩

def wSwapCert : World :=
  ⟨[], fun n => if n = 0 then some ⟨some "Y", none, none, none⟩
       else some goodCert, fun _ => true⟩

/-- C9 (counterexample): the cached descriptor changes after being cached,
in two realizable ways.  First trace (`wLateCert`): the trust fetch
resolves with no certificate data, the builder caches an anchor-less
secure descriptor, and `Db.connect`'s last-resort path then mutates that
cached object's `ca` field in place.  Second trace (`wSwapCert`): an
attempt suspended inside the builder's trust fetch is orphaned by
`invalidateDb()`; a newer attempt builds and caches an anchored
descriptor and succeeds, after which the orphan's resumption runs line
166 unconditionally and replaces the cached descriptor. -/
theorem c9_descriptor_counterexample :
    (cachedDescriptor (runFromR wLateCert envSecure "/" initStateR
        [Ev.call 0, Ev.resume 0]) =
      some ⟨"h:1", "u", "p", none, false, none⟩ ∧
     cachedDescriptor (runFromR wLateCert envSecure "/" initStateR
        [Ev.call 0, Ev.resume 0, Ev.resume 0]) =
      some ⟨"h:1", "u", "p", some (CaVal.pem "X"), false, none⟩) ∧
    (cachedDescriptor (runFromR wSwapCert envSecure "/" initStateR
        [Ev.call 0, Ev.invalidate, Ev.call 1, Ev.resume 1, Ev.resume 1]) =
      some ⟨"h:1", "u", "p", some (CaVal.pem "Y"), false, none⟩ ∧
     cachedDescriptor (runFromR wSwapCert envSecure "/" initStateR
        [Ev.call 0, Ev.invalidate, Ev.call 1, Ev.resume 1, Ev.resume 1,
         Ev.resume 0]) =
      some ⟨"h:1", "u", "p", some (CaVal.pem "X"), false, none⟩) := by
  exact ⟨⟨by decide, by decide⟩, ⟨by decide, by decide⟩⟩

/-- C9 (amended): the cached descriptor can change after construction in
exactly two ways — `Db.connect`'s last-resort path mutates an anchor-less
secure descriptor in place, and an attempt still suspended inside the
builder's trust fetch overwrites the slot on resumption — so the
process-wide mutable state is `cachedServer`, `cachedDb` and
`connecting`.  Once the cached descriptor has a trust anchor or has peer
verification disabled, and no attempt is suspended inside trust
resolution or the last-resort fetch, no later operation modifies or
replaces it. -/
theorem c9_descriptor_amended (w : World) (e : EnvVars) (cwd : String)
    (s : SysStateR) (d : ServerDescriptor) (evs : List Ev)
    (hd : cachedDescriptor s = some d)
    (hprot : d.ignoreUnauthorized = true ∨ d.ca ≠ none)
    (hnp : noPendingTrust s) :
    cachedDescriptor (runFromR w e cwd s evs) = some d := by
  have hnl : needsLastResort d = false := by
    rcases hprot with hig | hca
    · simp [needsLastResort, hig]
    · cases hc : d.ca with
      | none => exact absurd hc hca
      | some v => simp [needsLastResort, hc]
  cases hslot : s.cachedServer with
  | none => simp [cachedDescriptor, hslot] at hd
  | some ref =>
    have hget : s.store[ref]? = some d := by
      simpa [cachedDescriptor, hslot] using hd
    obtain ⟨hst, hsl⟩ :=
      runFromR_frozen w e cwd ref d evs s hslot hget hnl hnp
    simp [cachedDescriptor, hsl, hst, hget]

/-- Witness for C9 (amended): after a successful insecure acquisition the
cached descriptor survives invalidation and a further acquisition
unchanged. -/
theorem c9_descriptor_amended_witness :
    cachedDescriptor (runFromR wGood envInsecure "/" initStateR
      [Ev.call 0, Ev.resume 0]) =
      some ⟨"h:1", "u", "p", none, true, none⟩ ∧
    cachedDescriptor (runFromR wGood envInsecure "/"
      (runFromR wGood envInsecure "/" initStateR [Ev.call 0, Ev.resume 0])
      [Ev.invalidate, Ev.call 1, Ev.resume 1, Ev.resume 1]) =
      some ⟨"h:1", "u", "p", none, true, none⟩ := by
  have hts : (runFromR wGood envInsecure "/" initStateR
      [Ev.call 0, Ev.resume 0]).tasks = [] := by decide
  refine ⟨by decide, ?_⟩
  exact c9_descriptor_amended wGood envInsecure "/" _
    ⟨"h:1", "u", "p", none, true, none⟩
    [Ev.invalidate, Ev.call 1, Ev.resume 1, Ev.resume 1] (by decide)
    (Or.inl rfl)
    (fun a ph hph => by rw [hts] at hph; exact absurd hph (by simp [lookupN]))

/-- The canonical single-caller acquisition schedule: one `getDb()` call,
then the attempt is driven through all of its suspension points. -/
def acquireTrace : List Ev := [Ev.call 0, Ev.resume 0, Ev.resume 0, Ev.resume 0]

/-- Host, user or password missing (JS-falsy) in the merged configuration. -/
def missingCreds (e : EnvVars) (cwd : String) : Prop :=
  strTruthy (readDbEnv e cwd).host = false ∨
  strTruthy (readDbEnv e cwd).user = false ∨
  strTruthy (readDbEnv e cwd).pass = false

/-- The failure causes named by the specification: incomplete
configuration, a failed descriptor build (certificate resolution error in
secure mode), or a failing `Db.connect` for any reason. -/
def acquisitionFailureCause (w : World) (e : EnvVars) (cwd : String) : Prop :=
  missingCreds e cwd ∨
  (getDatabaseServer w e cwd none fx0).1 = none ∨
  ∃ srv nc fx1, getDatabaseServer w e cwd none fx0 = (some srv, nc, fx1) ∧
    (dbConnect w (some srv) 0 fx1).1 = Except.error ()

theorem gds_none_of_missing (w : World) (e : EnvVars) (cwd : String) (fx : Fx)
    (h : missingCreds e cwd) :
    getDatabaseServer w e cwd none fx = (none, none, fx) := by
  rcases h with h | h | h <;> simp [getDatabaseServer, h]

theorem gds_some_shape (w : World) (e : EnvVars) (cwd : String)
    (cached : Option ServerDescriptor) (fx : Fx) (srv : ServerDescriptor)
    (nc : Option ServerDescriptor) (fx1 : Fx)
    (h : getDatabaseServer w e cwd cached fx = (some srv, nc, fx1)) :
    nc = some srv := by
  cases cached with
  | some s0 =>
    simp [getDatabaseServer] at h
    rw [← h.2.1, h.1]
  | none =>
    cases hh : strTruthy (readDbEnv e cwd).host with
    | false => simp [getDatabaseServer, hh] at h
    | true =>
    cases hu : strTruthy (readDbEnv e cwd).user with
    | false => simp [getDatabaseServer, hh, hu] at h
    | true =>
    cases hpw : strTruthy (readDbEnv e cwd).pass with
    | false => simp [getDatabaseServer, hh, hu, hpw] at h
    | true =>
      cases hins : (readDbEnv e cwd).insecure with
      | true =>
        simp [getDatabaseServer, hh, hu, hpw, hins] at h
        rw [← h.2.1, ← h.1]
      | false =>
        rcases hrt : resolveTrust w (orEmpty (readDbEnv e cwd).host)
            (readDbEnv e cwd).certPath (readDbEnv e cwd).caPem fx with
          ⟨res, fx2⟩
        cases res with
        | error u => simp [getDatabaseServer, hh, hu, hpw, hins, hrt] at h
        | ok cert =>
          simp [getDatabaseServer, hh, hu, hpw, hins, hrt] at h
          rw [← h.2.1, ← h.1]

/-- C5: for every failure cause — missing host, user or password; failed
certificate resolution in secure mode; or a failing connect for any
reason — the acquisition settles with the explicit unavailable result
(`none`, never a thrown error) and the connection cache stays cold. -/
theorem c5_graceful_failure (w : World) (e : EnvVars) (cwd : String)
    (h : acquisitionFailureCause w e cwd) :
    lookupN 0 (runFrom w e cwd initState acquireTrace).results =
      some (CallRes.done none) ∧
    (runFrom w e cwd initState acquireTrace).cachedDb = none ∧
    (runFrom w e cwd initState acquireTrace).connecting = none := by
  have hS1 : runFrom w e cwd initState acquireTrace =
      runFrom w e cwd
        (⟨none, none, some 0, [(0, APhase.atServer)],
          [(0, CallRes.waiting 0)], 1, fx0⟩ : SysState)
        [Ev.resume 0, Ev.resume 0, Ev.resume 0] := rfl
  rw [hS1]
  rcases hg : getDatabaseServer w e cwd none fx0 with ⟨res, nc, fxg⟩
  cases res with
  | none =>
    rw [runFrom_cons,
      show step w e cwd
          (⟨none, none, some 0, [(0, APhase.atServer)],
            [(0, CallRes.waiting 0)], 1, fx0⟩ : SysState) (Ev.resume 0) =
        ⟨nc, none, none, [], [(0, CallRes.done none)], 1, fxg⟩ by
          simp [step, lookupN, hg, removeTask, settleResults]]
    rw [runFrom_resume_noop w e cwd
      (⟨nc, none, none, [], [(0, CallRes.done none)], 1, fxg⟩ : SysState) 0
      [Ev.resume 0, Ev.resume 0] (by intro ev hev; simpa using hev) rfl]
    exact ⟨by simp [lookupN], rfl, rfl⟩
  | some srv =>
    have hnc : nc = some srv := gds_some_shape w e cwd none fx0 srv nc fxg hg
    subst hnc
    have herr : (dbConnect w (some srv) 0 fxg).1 = Except.error () := by
      rcases h with hmiss | hnone | ⟨srv2, nc2, fx2, heq, herr2⟩
      · rw [gds_none_of_missing w e cwd fx0 hmiss] at hg
        simp at hg
      · rw [hg] at hnone
        simp at hnone
      · rw [hg] at heq
        simp at heq
        rw [heq.1, heq.2.2]
        exact herr2
    cases hnl : needsLastResort srv with
    | false =>
      rw [runFrom_cons,
        show step w e cwd
            (⟨none, none, some 0, [(0, APhase.atServer)],
              [(0, CallRes.waiting 0)], 1, fx0⟩ : SysState) (Ev.resume 0) =
          ⟨some srv, none, some 0, [(0, APhase.atPoolInit)],
            [(0, CallRes.waiting 0)], 1, fxg⟩ by
            simp [step, lookupN, hg, hnl, setTask]]
      cases hp : w.poolOk 0 with
      | true =>
        exfalso
        simp [dbConnect, hnl, hp, logEff] at herr
      | false =>
        rw [runFrom_cons,
          show step w e cwd
              (⟨some srv, none, some 0, [(0, APhase.atPoolInit)],
                [(0, CallRes.waiting 0)], 1, fxg⟩ : SysState) (Ev.resume 0) =
            ⟨some srv, none, none, [], [(0, CallRes.done none)], 1,
              logEff fxg Eff.poolInit⟩ by
              simp [step, lookupN, hp, removeTask, settleResults]]
        rw [runFrom_resume_noop w e cwd
          (⟨some srv, none, none, [], [(0, CallRes.done none)], 1,
            logEff fxg Eff.poolInit⟩ : SysState) 0
          [Ev.resume 0] (by intro ev hev; simpa using hev) rfl]
        exact ⟨by simp [lookupN], rfl, rfl⟩
    | true =>
      rw [runFrom_cons,
        show step w e cwd
            (⟨none, none, some 0, [(0, APhase.atServer)],
              [(0, CallRes.waiting 0)], 1, fx0⟩ : SysState) (Ev.resume 0) =
          ⟨some srv, none, some 0, [(0, APhase.atFetchCert)],
            [(0, CallRes.waiting 0)], 1, fxg⟩ by
            simp [step, lookupN, hg, hnl, setTask]]
      cases hfr : fetchCertResult w fxg.fetches with
      | error u =>
        rw [runFrom_cons,
          show step w e cwd
              (⟨some srv, none, some 0, [(0, APhase.atFetchCert)],
                [(0, CallRes.waiting 0)], 1, fxg⟩ : SysState) (Ev.resume 0) =
            ⟨some srv, none, none, [], [(0, CallRes.done none)], 1,
              ⟨fxg.fetches + 1, fxg.effs ++ [Eff.netFetch srv.host]⟩⟩ by
              simp [step, lookupN, fetchCert, hfr, removeTask, settleResults]]
        rw [runFrom_resume_noop w e cwd
          (⟨some srv, none, none, [], [(0, CallRes.done none)], 1,
            ⟨fxg.fetches + 1, fxg.effs ++ [Eff.netFetch srv.host]⟩⟩ :
              SysState) 0
          [Ev.resume 0] (by intro ev hev; simpa using hev) rfl]
        exact ⟨by simp [lookupN], rfl, rfl⟩
      | ok cert =>
        rw [runFrom_cons,
          show step w e cwd
              (⟨some srv, none, some 0, [(0, APhase.atFetchCert)],
                [(0, CallRes.waiting 0)], 1, fxg⟩ : SysState) (Ev.resume 0) =
            ⟨some (applyLastResort srv cert), none, some 0,
              [(0, APhase.atPoolInit)], [(0, CallRes.waiting 0)], 1,
              ⟨fxg.fetches + 1, fxg.effs ++ [Eff.netFetch srv.host]⟩⟩ by
              simp [step, lookupN, fetchCert, hfr, setTask]]
        cases hp : w.poolOk 0 with
        | true =>
          exfalso
          simp [dbConnect, hnl, fetchCert, hfr, hp, logEff] at herr
        | false =>
          rw [runFrom_cons,
            show step w e cwd
              (⟨some (applyLastResort srv cert), none, some 0,
                [(0, APhase.atPoolInit)], [(0, CallRes.waiting 0)], 1,
                ⟨fxg.fetches + 1, fxg.effs ++ [Eff.netFetch srv.host]⟩⟩ :
                  SysState) (Ev.resume 0) =
            ⟨some (applyLastResort srv cert), none, none, [],
              [(0, CallRes.done none)], 1,
              logEff ⟨fxg.fetches + 1, fxg.effs ++ [Eff.netFetch srv.host]⟩
                Eff.poolInit⟩ by
              simp [step, lookupN, hp, removeTask, settleResults]]
          exact ⟨by simp [lookupN], rfl, rfl⟩

/-- Witness for C5: a configuration with no password yields the
unavailable result and a cold cache. -/
theorem c5_graceful_failure_witness :
    missingCreds envNoPass "/" ∧
    lookupN 0 (runFrom wGood envNoPass "/" initState acquireTrace).results =
      some (CallRes.done none) ∧
    (runFrom wGood envNoPass "/" initState acquireTrace).cachedDb = none := by
  have hm : missingCreds envNoPass "/" := Or.inr (Or.inr (by decide))
  rcases c5_graceful_failure wGood envNoPass "/" (Or.inl hm) with ⟨h1, h2, _⟩
  exact ⟨hm, h1, h2⟩

end Mapepire
